import Mathlib

/-
Verification development for the BadgerDB buffer manager
(src/buffer-manager/src/buffer.cpp).

The state of the manager (class BufMgr) is embedded as the structure BM
below.  Frames are indexed 0 .. numBufs-1; the descriptor table and the
page pool are lists of that length.  The buffer hash table (class
BufHashTbl, declared outside this repository) is modelled from the spec
as an association list from (FileHandle, PageId) keys to frame indices;
file handles are Nat, and a File pointer value is Option Nat so that the
null owner of a cleared descriptor is none.  The external Page Store is
modelled as an association list of written pages plus a log of delete
calls; reading any page succeeds (the store is an external collaborator
assumed well behaved).  C++ exceptions become an Except value returned
next to the post-state, so that partially applied mutations made before
a throw are kept, exactly as in the source.
-/

namespace BufferManager

/-- Error kinds thrown by buffer.cpp: BufferExceededException (the spec
calls it PoolExhausted), PageNotPinnedException, PagePinnedException and
BadBufferException.  Hash-table misses are handled with Option instead
of HashNotFoundException, mirroring the try/catch structure. -/
inductive BufErr where
  | bufferExceeded
  | pageNotPinned
  | pagePinned
  | badBuffer
deriving DecidableEq, Repr

instance {ε α : Type} [DecidableEq ε] [DecidableEq α] : DecidableEq (Except ε α)
  | Except.ok a, Except.ok b =>
    if h : a = b then Decidable.isTrue (by rw [h])
    else Decidable.isFalse (fun hc => h (by cases hc; rfl))
  | Except.ok _, Except.error _ => Decidable.isFalse (fun hc => Except.noConfusion hc)
  | Except.error _, Except.ok _ => Decidable.isFalse (fun hc => Except.noConfusion hc)
  | Except.error e, Except.error f =>
    if h : e = f then Decidable.isTrue (by rw [h])
    else Decidable.isFalse (fun hc => h (by cases hc; rfl))

/-- One frame descriptor (class BufDesc, declared outside this
repository).  The frameNo field is omitted: it always equals the index
of the descriptor in the table.  pinCnt is a Nat: the source only ever
decrements it when it is positive. -/
structure BufDesc where
  file : Option Nat
  pageNo : Nat
  pinCnt : Nat
  dirty : Bool
  valid : Bool
  refbit : Bool
deriving DecidableEq, Repr

/-- Modelled from the spec: BufDesc::Clear resets a descriptor to the
free state (owner none, valid false, dirty false, refBit false, pin 0);
the page number sentinel is 0. -/
def BufDesc.Clear : BufDesc :=
  { file := none, pageNo := 0, pinCnt := 0, dirty := false, valid := false, refbit := false }

/-- Modelled from the spec: BufDesc::Set installs a new owner with
valid true, dirty false, refBit true and pin count 1. -/
def BufDesc.Set (f : Nat) (p : Nat) : BufDesc :=
  { file := some f, pageNo := p, pinCnt := 1, dirty := false, valid := true, refbit := true }

/-- First-match lookup in an association list; models
BufHashTbl::lookup, with none for HashNotFoundException. -/
def hLookup {κ ν : Type} [DecidableEq κ] : List (κ × ν) → κ → Option ν
  | [], _ => none
  | e :: t, k => if e.1 = k then some e.2 else hLookup t k

/-- Removal of the first entry with the given key; models
BufHashTbl::remove.  On the paths the source exercises the key is always
present (see the directory consistency invariant), so the
HashNotFoundException branch of the real table is never taken. -/
def hRemove {κ ν : Type} [DecidableEq κ] : List (κ × ν) → κ → List (κ × ν)
  | [], _ => []
  | e :: t, k => if e.1 = k then t else e :: hRemove t k

/-- The whole BufMgr state plus the modelled external Page Store. -/
structure BM where
  numBufs : Nat
  bufDescTable : List BufDesc
  bufPool : List Nat
  hashTable : List ((Option Nat × Nat) × Nat)
  clockHand : Nat
  store : List ((Nat × Nat) × Nat)
  deletes : List (Nat × Nat)
deriving DecidableEq, Repr

/-- bufDescTable[i]; out-of-range reads default to a cleared descriptor
(never reached from well-formed states). -/
def BM.desc (bm : BM) (i : Nat) : BufDesc :=
  bm.bufDescTable.getD i BufDesc.Clear

/-- BufMgr::advanceClock: increment the hand, wrapping at numBufs. -/
def advanceClock (bm : BM) : BM :=
  { bm with clockHand := if bm.clockHand + 1 = bm.numBufs then 0 else bm.clockHand + 1 }

/-- File::writePage followed by the later removal and Clear performed on
one frame by the body of the flushFile loop (buffer.cpp lines 179-186):
if the frame is dirty its contents are written to the store under its
own owner and the dirty bit is cleared, then its directory entry is
removed and the descriptor is cleared.  The written page is keyed by the
owner file and the page number recorded in the descriptor, which equals
the page number embedded in the page itself. -/
def flushStep (bm : BM) (i : Nat) : BM :=
  let d := bm.desc i
  let bm1 :=
    if d.dirty then
      { bm with
          store := ((d.file.getD 0, d.pageNo), bm.bufPool.getD i 0) :: bm.store,
          bufDescTable := bm.bufDescTable.set i { d with dirty := false } }
    else bm
  { bm1 with
      hashTable := hRemove bm1.hashTable (d.file, d.pageNo),
      bufDescTable := bm1.bufDescTable.set i BufDesc.Clear }

/-- The for-loop of BufMgr::flushFile (buffer.cpp lines 169-187).  rem
is the number of iterations left, so the loop visits frames i, i+1, ...,
i+rem-1; flushFile enters with i = 0 and rem = numBufs.  The first two
tests throw BadBufferException and PagePinnedException; the third
processes a resident frame of the argument file. -/
def flushLoop (f : Option Nat) : Nat → BM → Nat → Except BufErr Unit × BM
  | 0, bm, _ => (Except.ok (), bm)
  | rem + 1, bm, i =>
    if ¬ (bm.desc i).valid ∧ (bm.desc i).file = f then
      (Except.error BufErr.badBuffer, bm)
    else if (bm.desc i).file = f ∧ 0 < (bm.desc i).pinCnt then
      (Except.error BufErr.pagePinned, bm)
    else if (bm.desc i).valid ∧ (bm.desc i).file = f then
      flushLoop f rem (flushStep bm i) (i + 1)
    else
      flushLoop f rem bm (i + 1)

/-- BufMgr::flushFile (buffer.cpp lines 166-188). -/
def flushFile (f : Option Nat) (bm : BM) : Except BufErr Unit × BM :=
  flushLoop f bm.numBufs bm 0

/-- The while-loop of BufMgr::allocBuf (buffer.cpp lines 72-102).  The
source counts pinned frames in c and loops while c <= numBufs; here rem
= numBufs + 1 - c is the remaining allowance, decremented exactly when
the source increments c.  The branches mirror the source in order:
a non-valid frame is taken at once; an unpinned clean frame is taken
after removing its directory entry (the descriptor is not cleared); an
unpinned dirty frame triggers flushFile on its own file, whose failure
propagates; a pinned frame advances the hand and counts.  The trailing
refbit branch of the source (lines 93-96) is unreachable because the
pinCnt == 0 and pinCnt > 0 branches before it are exhaustive, so it has
no counterpart here.  The second component of the result counts how
often the clock hand is advanced (instrumentation only). -/
def allocBufLoop : Nat → BM → (Except BufErr Nat × BM) × Nat
  | 0, bm => ((Except.error BufErr.bufferExceeded, bm), 0)
  | rem + 1, bm =>
    if ¬ (bm.desc bm.clockHand).valid then
      ((Except.ok bm.clockHand, bm), 0)
    else if (bm.desc bm.clockHand).pinCnt = 0 ∧ ¬ (bm.desc bm.clockHand).dirty then
      ((Except.ok bm.clockHand,
        { bm with hashTable :=
            hRemove bm.hashTable ((bm.desc bm.clockHand).file, (bm.desc bm.clockHand).pageNo) }), 0)
    else if (bm.desc bm.clockHand).pinCnt = 0 ∧ (bm.desc bm.clockHand).dirty then
      ((match flushFile (bm.desc bm.clockHand).file bm with
        | (Except.ok _, bm1) => (Except.ok bm.clockHand, bm1)
        | (Except.error e, bm1) => (Except.error e, bm1)), 0)
    else
      ((allocBufLoop rem (advanceClock bm)).1, (allocBufLoop rem (advanceClock bm)).2 + 1)

/-- BufMgr::allocBuf: run the sweep with the allowance the source grants
(c from 0 to numBufs inclusive). -/
def allocBuf (bm : BM) : Except BufErr Nat × BM :=
  (allocBufLoop (bm.numBufs + 1) bm).1

/-- Number of clock-hand advances a call to allocBuf performs. -/
def allocBufAdvances (bm : BM) : Nat :=
  (allocBufLoop (bm.numBufs + 1) bm).2

/-- Modelled from the spec: File::readPage returns the stored bytes of
the page; a page never written reads as 0.  The store is assumed to
serve any read (crash-free external collaborator). -/
def storeRead (s : List ((Nat × Nat) × Nat)) (f p : Nat) : Nat :=
  (hLookup s (f, p)).getD 0

/-- BufMgr::readPage (buffer.cpp lines 111-132).  A directory hit sets
the refbit and increments the pin count; a miss allocates a frame, reads
the page from the store into the pool, inserts the directory entry and
installs the descriptor with BufDesc::Set.  The returned value is the
frame index standing for the returned page pointer. -/
def readPage (fi : Nat) (p : Nat) (bm : BM) : Except BufErr Nat × BM :=
  match hLookup bm.hashTable (some fi, p) with
  | some frameNo =>
      (Except.ok frameNo,
        { bm with
            bufDescTable := bm.bufDescTable.set frameNo
              ({ bm.desc frameNo with refbit := true, pinCnt := (bm.desc frameNo).pinCnt + 1 }) })
  | none =>
      match allocBuf bm with
      | (Except.error e, bm1) => (Except.error e, bm1)
      | (Except.ok frameFree, bm1) =>
          (Except.ok frameFree,
            { bm1 with
                bufPool := bm1.bufPool.set frameFree (storeRead bm1.store fi p),
                hashTable := ((some fi, p), frameFree) :: bm1.hashTable,
                bufDescTable := bm1.bufDescTable.set frameFree (BufDesc.Set fi p) })

/-- BufMgr::unPinPage (buffer.cpp lines 140-157).  A directory miss is
swallowed (empty catch block); a zero pin count throws
PageNotPinnedException before any mutation; otherwise the dirty flag is
optionally set and the pin count decremented. -/
def unPinPage (fi : Nat) (p : Nat) (dirty : Bool) (bm : BM) : Except BufErr Unit × BM :=
  match hLookup bm.hashTable (some fi, p) with
  | none => (Except.ok (), bm)
  | some t =>
      if (bm.desc t).pinCnt = 0 then
        (Except.error BufErr.pageNotPinned, bm)
      else
        (Except.ok (),
          { bm with
              bufDescTable := bm.bufDescTable.set t
                ({ (if dirty then { bm.desc t with dirty := true } else bm.desc t) with
                    pinCnt := (bm.desc t).pinCnt - 1 }) })

/-- Largest page number appearing as a directory key. -/
def maxPageNo (t : List ((Option Nat × Nat) × Nat)) : Nat :=
  t.foldr (fun e m => max e.1.2 m) 0

/-- Modelled from the spec: File::allocatePage hands out a new page of
the file, so its page id differs from that of every resident page; the
model picks one above every page number currently in the directory. -/
def freshPageId (t : List ((Option Nat × Nat) × Nat)) : Nat :=
  maxPageNo t + 1

/-- BufMgr::allocPage (buffer.cpp lines 193-204): allocate a frame, let
the file allocate a fresh page into it, then insert the directory entry
and install the descriptor.  Returns (new page id, frame index). -/
def allocPage (fi : Nat) (bm : BM) : Except BufErr (Nat × Nat) × BM :=
  match allocBuf bm with
  | (Except.error e, bm1) => (Except.error e, bm1)
  | (Except.ok frameToAlloc, bm1) =>
      (Except.ok (freshPageId bm1.hashTable, frameToAlloc),
        { bm1 with
            bufPool := bm1.bufPool.set frameToAlloc 0,
            hashTable := ((some fi, freshPageId bm1.hashTable), frameToAlloc) :: bm1.hashTable,
            bufDescTable := bm1.bufDescTable.set frameToAlloc
              (BufDesc.Set fi (freshPageId bm1.hashTable)) })

/-- BufMgr::disposePage (buffer.cpp lines 209-231).  A resident pinned
page throws PagePinnedException untouched; a resident unpinned page is
cleared, its entry removed and File::deletePage called; a miss falls to
the catch block, which only calls File::deletePage.  Delete calls are
recorded in the deletes log. -/
def disposePage (fi : Nat) (p : Nat) (bm : BM) : Except BufErr Unit × BM :=
  match hLookup bm.hashTable (some fi, p) with
  | some tempFrame =>
      if (bm.desc tempFrame).pinCnt ≠ 0 then
        (Except.error BufErr.pagePinned, bm)
      else
        (Except.ok (),
          { bm with
              bufDescTable := bm.bufDescTable.set tempFrame BufDesc.Clear,
              hashTable := hRemove bm.hashTable (some fi, p),
              deletes := bm.deletes ++ [(fi, p)] })
  | none => (Except.ok (), { bm with deletes := bm.deletes ++ [(fi, p)] })

/-- Directory / descriptor-table consistency: the table is well sized,
the hand is in range, directory keys are unique, an entry mapping a key
to frame j exists exactly when frame j is valid with that owner, and a
non-valid descriptor is fully cleared (in particular its owner is the
null file).  All quantifiers are bounded, so the predicate is decidable
on concrete states. -/
def consistent (bm : BM) : Prop :=
  bm.bufDescTable.length = bm.numBufs ∧
  bm.clockHand < bm.numBufs ∧
  (bm.hashTable.map Prod.fst).Nodup ∧
  (∀ e ∈ bm.hashTable, e.2 < bm.numBufs ∧ (bm.desc e.2).valid ∧
      (bm.desc e.2).file = e.1.1 ∧ (bm.desc e.2).pageNo = e.1.2) ∧
  (∀ j, j < bm.numBufs → (bm.desc j).valid →
      (((bm.desc j).file, (bm.desc j).pageNo), j) ∈ bm.hashTable) ∧
  (∀ j, j < bm.numBufs → ¬ (bm.desc j).valid → bm.desc j = BufDesc.Clear)

/-- Consistency with one frame exempted: the mid-operation shape after
allocBuf has handed out frame fr but before readPage or allocPage has
re-registered it.  No directory entry mentions fr, and every other frame
satisfies the consistency clauses. -/
def consistentX (bm : BM) (fr : Nat) : Prop :=
  bm.bufDescTable.length = bm.numBufs ∧
  bm.clockHand < bm.numBufs ∧
  (bm.hashTable.map Prod.fst).Nodup ∧
  (∀ e ∈ bm.hashTable, e.2 < bm.numBufs ∧ e.2 ≠ fr ∧ (bm.desc e.2).valid ∧
      (bm.desc e.2).file = e.1.1 ∧ (bm.desc e.2).pageNo = e.1.2) ∧
  (∀ j, j < bm.numBufs → j ≠ fr → (bm.desc j).valid →
      (((bm.desc j).file, (bm.desc j).pageNo), j) ∈ bm.hashTable) ∧
  (∀ j, j < bm.numBufs → j ≠ fr → ¬ (bm.desc j).valid → bm.desc j = BufDesc.Clear)

instance (bm : BM) : Decidable (consistent bm) := by
  unfold consistent
  have h5 : Decidable (∀ j, j < bm.numBufs → (bm.desc j).valid →
      (((bm.desc j).file, (bm.desc j).pageNo), j) ∈ bm.hashTable) :=
    Nat.decidableBallLT _ _
  have h6 : Decidable (∀ j, j < bm.numBufs → ¬ (bm.desc j).valid → bm.desc j = BufDesc.Clear) :=
    Nat.decidableBallLT _ _
  infer_instance

instance (bm : BM) : Decidable (∀ j, j < bm.numBufs → (bm.desc j).valid →
    (((bm.desc j).file, (bm.desc j).pageNo), j) ∈ bm.hashTable) :=
  Nat.decidableBallLT _ _

instance (bm : BM) (fr : Nat) : Decidable (consistentX bm fr) := by
  unfold consistentX
  have h5 : Decidable (∀ j, j < bm.numBufs → j ≠ fr → (bm.desc j).valid →
      (((bm.desc j).file, (bm.desc j).pageNo), j) ∈ bm.hashTable) :=
    Nat.decidableBallLT _ _
  have h6 : Decidable (∀ j, j < bm.numBufs → j ≠ fr → ¬ (bm.desc j).valid →
      bm.desc j = BufDesc.Clear) :=
    Nat.decidableBallLT _ _
  infer_instance

/-- One public operation of the manager (section 4.3 of the spec). -/
inductive Op where
  | read : Nat → Nat → Op
  | unpin : Nat → Nat → Bool → Op
  | alloc : Nat → Op
  | dispose : Nat → Nat → Op
  | flush : Nat → Op

/-- Post-state of one public call, whether it returns or throws: the
source mutates in place, so the state reached on a failure path is the
partially updated one. -/
def applyOp : Op → BM → BM
  | Op.read f p, bm => (readPage f p bm).2
  | Op.unpin f p d, bm => (unPinPage f p d bm).2
  | Op.alloc f, bm => (allocPage f bm).2
  | Op.dispose f p, bm => (disposePage f p bm).2
  | Op.flush f, bm => (flushFile (some f) bm).2

/-- BufMgr::BufMgr(n): every descriptor starts non-valid, the pool is
zeroed, the directory is empty and the hand starts at n - 1. -/
def initBM (n : Nat) : BM :=
  { numBufs := n,
    bufDescTable := List.replicate n BufDesc.Clear,
    bufPool := List.replicate n 0,
    hashTable := [],
    clockHand := n - 1,
    store := [],
    deletes := [] }

/-- States reachable from a freshly constructed manager with at least
one frame through any sequence of public calls, successful or failing. -/
inductive Reachable : BM → Prop where
  | init : ∀ n, 0 < n → Reachable (initBM n)
  | step : ∀ bm op, Reachable bm → Reachable (applyOp op bm)

/-- Example state for claim C1: a single valid, unpinned, clean frame
whose refbit is set, resident page (3, 7). -/
def exC1 : BM :=
  { numBufs := 1,
    bufDescTable := [{ file := some 3, pageNo := 7, pinCnt := 0,
                       dirty := false, valid := true, refbit := true }],
    bufPool := [42],
    hashTable := [((some 3, 7), 0)],
    clockHand := 0,
    store := [],
    deletes := [] }

/-- Example state for claim C2: two unpinned dirty frames of file 5 at
pages 1 and 2; the hand points at frame 0. -/
def exC2 : BM :=
  { numBufs := 2,
    bufDescTable :=
      [{ file := some 5, pageNo := 1, pinCnt := 0, dirty := true, valid := true, refbit := false },
       { file := some 5, pageNo := 2, pinCnt := 0, dirty := true, valid := true, refbit := false }],
    bufPool := [10, 20],
    hashTable := [((some 5, 1), 0), ((some 5, 2), 1)],
    clockHand := 0,
    store := [],
    deletes := [] }

/-- Example state for claim C5: the hand points at an unpinned dirty
page (6, 1) in frame 0 while another page (6, 2) of the same file is
pinned in frame 1; page (9, 5) is not resident. -/
def exC5 : BM :=
  { numBufs := 2,
    bufDescTable :=
      [{ file := some 6, pageNo := 1, pinCnt := 0, dirty := true, valid := true, refbit := false },
       { file := some 6, pageNo := 2, pinCnt := 2, dirty := false, valid := true, refbit := false }],
    bufPool := [11, 22],
    hashTable := [((some 6, 1), 0), ((some 6, 2), 1)],
    clockHand := 0,
    store := [],
    deletes := [] }

/-- Example state for claim C8: like exC5 with different identities, so
the sweep ends in PagePinnedException rather than returning a frame or
BufferExceededException. -/
def exC8 : BM :=
  { numBufs := 2,
    bufDescTable :=
      [{ file := some 7, pageNo := 1, pinCnt := 0, dirty := true, valid := true, refbit := false },
       { file := some 7, pageNo := 2, pinCnt := 3, dirty := false, valid := true, refbit := false }],
    bufPool := [1, 2],
    hashTable := [((some 7, 1), 0), ((some 7, 2), 1)],
    clockHand := 0,
    store := [],
    deletes := [] }

/-- Example state for the C4 witness: both frames pinned. -/
def exC4 : BM :=
  { numBufs := 2,
    bufDescTable :=
      [{ file := some 4, pageNo := 1, pinCnt := 1, dirty := false, valid := true, refbit := true },
       { file := some 4, pageNo := 2, pinCnt := 2, dirty := true, valid := true, refbit := false }],
    bufPool := [5, 6],
    hashTable := [((some 4, 1), 0), ((some 4, 2), 1)],
    clockHand := 1,
    store := [],
    deletes := [] }

/-- Example state for the C6 witness: file 8 resident with one dirty
unpinned page and one clean unpinned page, plus an unrelated pinned page
of file 9. -/
def exC6 : BM :=
  { numBufs := 3,
    bufDescTable :=
      [{ file := some 8, pageNo := 1, pinCnt := 0, dirty := true, valid := true, refbit := true },
       { file := some 9, pageNo := 1, pinCnt := 1, dirty := true, valid := true, refbit := false },
       { file := some 8, pageNo := 2, pinCnt := 0, dirty := false, valid := true, refbit := false }],
    bufPool := [71, 72, 73],
    hashTable := [((some 8, 1), 0), ((some 9, 1), 1), ((some 8, 2), 2)],
    clockHand := 0,
    store := [],
    deletes := [] }

/-- Example state for the C7, C9 and C10 witnesses: page (2, 4) resident
pinned in frame 0, page (2, 6) resident unpinned in frame 1. -/
def exPin : BM :=
  { numBufs := 2,
    bufDescTable :=
      [{ file := some 2, pageNo := 4, pinCnt := 1, dirty := false, valid := true, refbit := true },
       { file := some 2, pageNo := 6, pinCnt := 0, dirty := true, valid := true, refbit := false }],
    bufPool := [31, 32],
    hashTable := [((some 2, 4), 0), ((some 2, 6), 1)],
    clockHand := 1,
    store := [],
    deletes := [] }

/-- Example state for the C2 amended-claim witness: the hand points at an
unpinned dirty page of file 12 and nothing of file 12 is pinned; a clean
resident page of file 13 must survive the eviction untouched. -/
def exC2w : BM :=
  { numBufs := 2,
    bufDescTable :=
      [{ file := some 12, pageNo := 1, pinCnt := 0, dirty := true, valid := true, refbit := false },
       { file := some 13, pageNo := 1, pinCnt := 0, dirty := false, valid := true, refbit := true }],
    bufPool := [81, 82],
    hashTable := [((some 12, 1), 0), ((some 13, 1), 1)],
    clockHand := 0,
    store := [],
    deletes := [] }

/-! Generic lemmas about hLookup, hRemove and List.getD. -/

theorem hLookup_mem {κ ν : Type} [DecidableEq κ] {t : List (κ × ν)} {k : κ} {v : ν}
    (h : hLookup t k = some v) : (k, v) ∈ t := by
  induction t with
  | nil => simp [hLookup] at h
  | cons a t ih =>
    obtain ⟨ak, av⟩ := a
    by_cases he : ak = k
    · subst he
      simp [hLookup] at h
      subst h
      exact List.mem_cons_self _ _
    · simp [hLookup, he] at h
      exact List.mem_cons_of_mem _ (ih h)

theorem hLookup_eq_none {κ ν : Type} [DecidableEq κ] {t : List (κ × ν)} {k : κ} :
    hLookup t k = none ↔ ∀ v, (k, v) ∉ t := by
  induction t with
  | nil => simp [hLookup]
  | cons a t ih =>
    obtain ⟨ak, av⟩ := a
    by_cases he : ak = k
    · constructor
      · intro h
        have hv : hLookup ((ak, av) :: t) k = some av := by simp [hLookup, he]
        rw [hv] at h
        cases h
      · intro h
        have hm : (k, av) ∈ (ak, av) :: t := by
          rw [← he]
          exact List.mem_cons_self _ _
        exact absurd hm (h av)
    · simp only [hLookup, if_neg he, ih]
      constructor
      · intro h v hv
        rcases List.mem_cons.mp hv with h1 | h1
        · exact he (by cases h1; rfl)
        · exact h v h1
      · intro h v hv
        exact h v (List.mem_cons_of_mem _ hv)

theorem hLookup_of_mem_nodup {κ ν : Type} [DecidableEq κ] {t : List (κ × ν)} {k : κ} {v : ν}
    (hnd : (t.map Prod.fst).Nodup) (hm : (k, v) ∈ t) : hLookup t k = some v := by
  induction t with
  | nil => cases hm
  | cons a t ih =>
    obtain ⟨ak, av⟩ := a
    rw [List.map_cons, List.nodup_cons] at hnd
    rcases List.mem_cons.mp hm with h1 | h1
    · cases h1
      simp [hLookup]
    · have hne : ak ≠ k := by
        intro he
        subst he
        have h2 : ((ak, v).1) ∈ List.map Prod.fst t := List.mem_map_of_mem Prod.fst h1
        exact hnd.1 h2
      simp only [hLookup, if_neg hne]
      exact ih hnd.2 h1

theorem hRemove_subset {κ ν : Type} [DecidableEq κ] {t : List (κ × ν)} {k : κ} :
    ∀ e ∈ hRemove t k, e ∈ t := by
  induction t with
  | nil => intro e he; cases he
  | cons a t ih =>
    intro e he
    by_cases ha : a.1 = k
    · simp only [hRemove, if_pos ha] at he
      exact List.mem_cons_of_mem _ he
    · simp only [hRemove, if_neg ha] at he
      rcases List.mem_cons.mp he with h1 | h1
      · exact h1 ▸ List.mem_cons_self _ _
      · exact List.mem_cons_of_mem _ (ih e h1)

theorem hRemove_sublist {κ ν : Type} [DecidableEq κ] (t : List (κ × ν)) (k : κ) :
    List.Sublist (hRemove t k) t := by
  induction t with
  | nil => simp [hRemove]
  | cons a t ih =>
    by_cases ha : a.1 = k
    · simpa only [hRemove, if_pos ha] using List.sublist_cons_self a t
    · simpa only [hRemove, if_neg ha] using List.Sublist.cons₂ a ih

theorem keys_nodup_hRemove {κ ν : Type} [DecidableEq κ] {t : List (κ × ν)} {k : κ}
    (h : (t.map Prod.fst).Nodup) : ((hRemove t k).map Prod.fst).Nodup :=
  List.Nodup.sublist (List.Sublist.map Prod.fst (hRemove_sublist t k)) h

theorem mem_hRemove_of_ne {κ ν : Type} [DecidableEq κ] {t : List (κ × ν)} {k k' : κ} {v : ν}
    (hm : (k', v) ∈ t) (hne : k' ≠ k) : (k', v) ∈ hRemove t k := by
  induction t with
  | nil => cases hm
  | cons a t ih =>
    obtain ⟨ak, av⟩ := a
    by_cases ha : ak = k
    · simp only [hRemove, if_pos ha]
      rcases List.mem_cons.mp hm with h1 | h1
      · cases h1
        exact absurd ha hne
      · exact h1
    · simp only [hRemove, if_neg ha]
      rcases List.mem_cons.mp hm with h1 | h1
      · exact h1 ▸ List.mem_cons_self _ _
      · exact List.mem_cons_of_mem _ (ih h1)

theorem hLookup_hRemove_ne {κ ν : Type} [DecidableEq κ] {t : List (κ × ν)} {k k' : κ}
    (hne : k' ≠ k) : hLookup (hRemove t k) k' = hLookup t k' := by
  induction t with
  | nil => simp [hRemove]
  | cons a t ih =>
    by_cases ha : a.1 = k
    · have : a.1 ≠ k' := by rw [ha]; exact fun h => hne h.symm
      simp only [hRemove, if_pos ha, hLookup, if_neg this]
    · simp only [hRemove, if_neg ha, hLookup]
      by_cases ha' : a.1 = k'
      · simp [ha']
      · simp only [if_neg ha', ih]

theorem not_mem_hRemove_self {κ ν : Type} [DecidableEq κ] {t : List (κ × ν)} {k : κ}
    (hnd : (t.map Prod.fst).Nodup) : ∀ v, (k, v) ∉ hRemove t k := by
  induction t with
  | nil => intro v hv; cases hv
  | cons a t ih =>
    obtain ⟨ak, av⟩ := a
    intro v hv
    rw [List.map_cons, List.nodup_cons] at hnd
    by_cases ha : ak = k
    · rw [hRemove, if_pos ha] at hv
      subst ha
      have h2 : ((ak, v).1) ∈ List.map Prod.fst t := List.mem_map_of_mem Prod.fst hv
      exact hnd.1 h2
    · rw [hRemove, if_neg ha] at hv
      rcases List.mem_cons.mp hv with h1 | h1
      · cases h1
        exact ha rfl
      · exact ih hnd.2 v h1

theorem hLookup_hRemove_self {κ ν : Type} [DecidableEq κ] {t : List (κ × ν)} {k : κ}
    (hnd : (t.map Prod.fst).Nodup) : hLookup (hRemove t k) k = none :=
  hLookup_eq_none.mpr (not_mem_hRemove_self hnd)

theorem hLookup_none_hRemove {κ ν : Type} [DecidableEq κ] {t : List (κ × ν)} {k k' : κ}
    (h : hLookup t k' = none) : hLookup (hRemove t k) k' = none :=
  hLookup_eq_none.mpr (fun v hv => hLookup_eq_none.mp h v (hRemove_subset _ hv))

theorem hLookup_cons_ne {κ ν : Type} [DecidableEq κ] {t : List (κ × ν)} {k k' : κ} {v : ν}
    (hne : k ≠ k') : hLookup ((k, v) :: t) k' = hLookup t k' := by
  simp only [hLookup, if_neg hne]

theorem getD_set_ne {α : Type} {l : List α} {i j : Nat} {a d : α} (h : i ≠ j) :
    (l.set i a).getD j d = l.getD j d := by
  induction l generalizing i j with
  | nil => simp [List.set]
  | cons b l ih =>
    cases i with
    | zero =>
      cases j with
      | zero => exact absurd rfl h
      | succ j => simp [List.set, List.getD]
    | succ i =>
      cases j with
      | zero => simp [List.set, List.getD]
      | succ j =>
        simp only [List.set, List.getD_cons_succ]
        exact ih (fun he => h (by rw [he]))

theorem getD_set_self {α : Type} {l : List α} {i : Nat} {a : α} :
    (l.set i a).getD i a = a := by
  induction l generalizing i with
  | nil => simp [List.set, List.getD]
  | cons b l ih =>
    cases i with
    | zero => simp [List.set, List.getD]
    | succ i => simpa [List.set, List.getD_cons_succ] using ih

theorem getD_set_self_of_lt {α : Type} {l : List α} {i : Nat} {a d : α} (h : i < l.length) :
    (l.set i a).getD i d = a := by
  induction l generalizing i with
  | nil => simp at h
  | cons b l ih =>
    cases i with
    | zero => simp [List.set, List.getD]
    | succ i =>
      simp only [List.set, List.getD_cons_succ]
      exact ih (by simpa using h)

theorem getD_eq_of_ge {α : Type} {l : List α} {i : Nat} {d : α} (h : l.length ≤ i) :
    l.getD i d = d := by
  induction l generalizing i with
  | nil => simp [List.getD]
  | cons b l ih =>
    cases i with
    | zero => simp at h
    | succ i =>
      simp only [List.getD_cons_succ]
      exact ih (by simpa using h)

theorem getD_replicate_of_lt {α : Type} {n j : Nat} {a d : α} (h : j < n) :
    (List.replicate n a).getD j d = a := by
  induction n generalizing j with
  | zero => simp at h
  | succ n ih =>
    cases j with
    | zero => simp [List.replicate, List.getD]
    | succ j =>
      simp only [List.replicate, List.getD_cons_succ]
      exact ih (by omega)

/-! Lemmas on flushStep: effect on each state component.  The
intermediate dirty := false write of the source is absorbed by the
final Clear of the same descriptor, giving the normal form below. -/

theorem flushStep_eq (bm : BM) (i : Nat) :
    flushStep bm i =
      { bm with
          store :=
            if (bm.desc i).dirty then
              (((bm.desc i).file.getD 0, (bm.desc i).pageNo), bm.bufPool.getD i 0) :: bm.store
            else bm.store,
          hashTable := hRemove bm.hashTable ((bm.desc i).file, (bm.desc i).pageNo),
          bufDescTable := bm.bufDescTable.set i BufDesc.Clear } := by
  unfold flushStep
  by_cases hd : (bm.desc i).dirty
  · simp [hd, List.set_set]
  · simp [hd]

theorem flushStep_numBufs (bm : BM) (i : Nat) : (flushStep bm i).numBufs = bm.numBufs := by
  rw [flushStep_eq]

theorem flushStep_clockHand (bm : BM) (i : Nat) : (flushStep bm i).clockHand = bm.clockHand := by
  rw [flushStep_eq]

theorem flushStep_bufPool (bm : BM) (i : Nat) : (flushStep bm i).bufPool = bm.bufPool := by
  rw [flushStep_eq]

theorem flushStep_deletes (bm : BM) (i : Nat) : (flushStep bm i).deletes = bm.deletes := by
  rw [flushStep_eq]

theorem flushStep_length (bm : BM) (i : Nat) :
    (flushStep bm i).bufDescTable.length = bm.bufDescTable.length := by
  rw [flushStep_eq]
  simp

theorem flushStep_hashTable (bm : BM) (i : Nat) :
    (flushStep bm i).hashTable = hRemove bm.hashTable ((bm.desc i).file, (bm.desc i).pageNo) := by
  rw [flushStep_eq]

theorem flushStep_store (bm : BM) (i : Nat) :
    (flushStep bm i).store =
      if (bm.desc i).dirty then
        (((bm.desc i).file.getD 0, (bm.desc i).pageNo), bm.bufPool.getD i 0) :: bm.store
      else bm.store := by
  rw [flushStep_eq]

theorem flushStep_desc_ne (bm : BM) {i j : Nat} (h : j ≠ i) :
    (flushStep bm i).desc j = bm.desc j := by
  rw [flushStep_eq]
  show (bm.bufDescTable.set i BufDesc.Clear).getD j BufDesc.Clear =
    bm.bufDescTable.getD j BufDesc.Clear
  exact getD_set_ne (Ne.symm h)

theorem flushStep_desc_self (bm : BM) (i : Nat) :
    (flushStep bm i).desc i = BufDesc.Clear := by
  rw [flushStep_eq]
  show (bm.bufDescTable.set i BufDesc.Clear).getD i BufDesc.Clear = BufDesc.Clear
  exact getD_set_self

theorem hLookup_cons_self {κ ν : Type} [DecidableEq κ] {t : List (κ × ν)} {k : κ} {v : ν} :
    hLookup ((k, v) :: t) k = some v := by
  simp [hLookup]

theorem keys_inj {κ ν : Type} [DecidableEq κ] {t : List (κ × ν)}
    (hnd : (t.map Prod.fst).Nodup) {k : κ} {v v2 : ν}
    (h1 : (k, v) ∈ t) (h2 : (k, v2) ∈ t) : v = v2 := by
  have e1 := hLookup_of_mem_nodup hnd h1
  have e2 := hLookup_of_mem_nodup hnd h2
  rw [e1] at e2
  exact Option.some.inj e2

theorem desc_valid_lt {bm : BM} {i : Nat} (hlen : bm.bufDescTable.length = bm.numBufs)
    (h : (bm.desc i).valid) : i < bm.numBufs := by
  by_contra hge
  have hcl : bm.desc i = BufDesc.Clear := getD_eq_of_ge (by omega)
  rw [hcl] at h
  simp [BufDesc.Clear] at h

/-! Lemmas on the flushFile loop, by induction on the remaining
iteration count. -/

theorem flushLoop_misc (f : Option Nat) (rem : Nat) : ∀ bm i,
    (flushLoop f rem bm i).2.numBufs = bm.numBufs ∧
    (flushLoop f rem bm i).2.clockHand = bm.clockHand ∧
    (flushLoop f rem bm i).2.bufPool = bm.bufPool ∧
    (flushLoop f rem bm i).2.deletes = bm.deletes ∧
    (flushLoop f rem bm i).2.bufDescTable.length = bm.bufDescTable.length := by
  induction rem with
  | zero =>
    intro bm i
    simp [flushLoop]
  | succ rem ih =>
    intro bm i
    simp only [flushLoop]
    split_ifs with h1 h2 h3
    · simp
    · simp
    · have hs := ih (flushStep bm i) (i + 1)
      refine ⟨?_, ?_, ?_, ?_, ?_⟩
      · rw [hs.1, flushStep_numBufs]
      · rw [hs.2.1, flushStep_clockHand]
      · rw [hs.2.2.1, flushStep_bufPool]
      · rw [hs.2.2.2.1, flushStep_deletes]
      · rw [hs.2.2.2.2, flushStep_length]
    · exact ih bm (i + 1)

theorem flushLoop_desc_untouched (f : Option Nat) (rem : Nat) : ∀ bm i j,
    (j < i ∨ i + rem ≤ j ∨ ¬ ((bm.desc j).valid ∧ (bm.desc j).file = f)) →
    (flushLoop f rem bm i).2.desc j = bm.desc j := by
  induction rem with
  | zero =>
    intro bm i j _
    simp [flushLoop]
  | succ rem ih =>
    intro bm i j h
    simp only [flushLoop]
    split_ifs with h1 h2 h3
    · rfl
    · rfl
    · have hji : j ≠ i := by
        rintro rfl
        rcases h with h | h | h
        · omega
        · omega
        · exact h h3
      have hcond : j < i + 1 ∨ (i + 1) + rem ≤ j ∨
          ¬ (((flushStep bm i).desc j).valid ∧ ((flushStep bm i).desc j).file = f) := by
        rcases h with h | h | h
        · left; omega
        · right; left; omega
        · right; right
          rw [flushStep_desc_ne bm hji]
          exact h
      rw [ih (flushStep bm i) (i + 1) j hcond, flushStep_desc_ne bm hji]
    · apply ih
      rcases h with h | h | h
      · left; omega
      · right; left; omega
      · by_cases hji : j = i
        · left; omega
        · right; right; exact h

theorem flushLoop_ok_clear (f : Option Nat) (rem : Nat) : ∀ bm i j,
    i ≤ j → j < i + rem → (bm.desc j).valid → (bm.desc j).file = f →
    (flushLoop f rem bm i).1 = Except.ok () →
    (flushLoop f rem bm i).2.desc j = BufDesc.Clear := by
  induction rem with
  | zero =>
    intro bm i j hij hj _ _ _
    omega
  | succ rem ih =>
    intro bm i j hij hj hv hf hok
    simp only [flushLoop] at hok ⊢
    split_ifs at hok ⊢ with h1 h2 h3
    · by_cases hji : j = i
      · subst hji
        rw [flushLoop_desc_untouched f rem (flushStep bm j) (j + 1) j (Or.inl (by omega)),
          flushStep_desc_self]
      · exact ih (flushStep bm i) (i + 1) j (by omega) (by omega)
          (by rw [flushStep_desc_ne bm hji]; exact hv)
          (by rw [flushStep_desc_ne bm hji]; exact hf) hok
    · have hji : j ≠ i := by
        rintro rfl
        exact h3 ⟨hv, hf⟩
      exact ih bm (i + 1) j (by omega) (by omega) hv hf hok

theorem flushLoop_hashTable_ne (f : Option Nat) (rem : Nat) : ∀ bm i (k : Option Nat × Nat),
    k.1 ≠ f → hLookup (flushLoop f rem bm i).2.hashTable k = hLookup bm.hashTable k := by
  induction rem with
  | zero =>
    intro bm i k _
    simp [flushLoop]
  | succ rem ih =>
    intro bm i k hk
    simp only [flushLoop]
    split_ifs with h1 h2 h3
    · rfl
    · rfl
    · have hne : k ≠ ((bm.desc i).file, (bm.desc i).pageNo) := by
        intro he
        apply hk
        rw [he]
        exact h3.2
      rw [ih (flushStep bm i) (i + 1) k hk, flushStep_hashTable]
      exact hLookup_hRemove_ne hne
    · exact ih bm (i + 1) k hk

theorem flushLoop_lookup_none (f : Option Nat) (rem : Nat) : ∀ bm i (k : Option Nat × Nat),
    hLookup bm.hashTable k = none →
    hLookup (flushLoop f rem bm i).2.hashTable k = none := by
  induction rem with
  | zero =>
    intro bm i k h
    simpa [flushLoop] using h
  | succ rem ih =>
    intro bm i k h
    simp only [flushLoop]
    split_ifs with h1 h2 h3
    · exact h
    · exact h
    · refine ih (flushStep bm i) (i + 1) k ?_
      rw [flushStep_hashTable]
      exact hLookup_none_hRemove h
    · exact ih bm (i + 1) k h

theorem flushLoop_hashTable_subset (f : Option Nat) (rem : Nat) : ∀ bm i e,
    e ∈ (flushLoop f rem bm i).2.hashTable → e ∈ bm.hashTable := by
  induction rem with
  | zero =>
    intro bm i e h
    simpa [flushLoop] using h
  | succ rem ih =>
    intro bm i e h
    simp only [flushLoop] at h
    split_ifs at h with h1 h2 h3
    · exact h
    · exact h
    · have h4 := ih (flushStep bm i) (i + 1) e h
      rw [flushStep_hashTable] at h4
      exact hRemove_subset _ h4
    · exact ih bm (i + 1) e h

theorem flushLoop_keys_nodup (f : Option Nat) (rem : Nat) : ∀ bm i,
    (bm.hashTable.map Prod.fst).Nodup →
    ((flushLoop f rem bm i).2.hashTable.map Prod.fst).Nodup := by
  induction rem with
  | zero =>
    intro bm i h
    simpa [flushLoop] using h
  | succ rem ih =>
    intro bm i h
    simp only [flushLoop]
    split_ifs with h1 h2 h3
    · exact h
    · exact h
    · refine ih (flushStep bm i) (i + 1) ?_
      rw [flushStep_hashTable]
      exact keys_nodup_hRemove h
    · exact ih bm (i + 1) h

theorem flushLoop_ok_removed (f : Option Nat) (rem : Nat) : ∀ bm i j,
    (bm.hashTable.map Prod.fst).Nodup →
    i ≤ j → j < i + rem → (bm.desc j).valid → (bm.desc j).file = f →
    (flushLoop f rem bm i).1 = Except.ok () →
    hLookup (flushLoop f rem bm i).2.hashTable (f, (bm.desc j).pageNo) = none := by
  induction rem with
  | zero =>
    intro bm i j _ hij hj _ _ _
    omega
  | succ rem ih =>
    intro bm i j hnd hij hj hv hf hok
    simp only [flushLoop] at hok ⊢
    split_ifs at hok ⊢ with h1 h2 h3
    · by_cases hji : j = i
      · subst hji
        refine flushLoop_lookup_none f rem (flushStep bm j) (j + 1) _ ?_
        rw [flushStep_hashTable, ← hf]
        exact hLookup_hRemove_self hnd
      · have h4 := ih (flushStep bm i) (i + 1) j
          (by rw [flushStep_hashTable]; exact keys_nodup_hRemove hnd)
          (by omega) (by omega)
          (by rw [flushStep_desc_ne bm hji]; exact hv)
          (by rw [flushStep_desc_ne bm hji]; exact hf) hok
        rw [flushStep_desc_ne bm hji] at h4
        exact h4
    · have hji : j ≠ i := by
        rintro rfl
        exact h3 ⟨hv, hf⟩
      exact ih bm (i + 1) j hnd (by omega) (by omega) hv hf hok

theorem flushLoop_ok (f : Option Nat) (rem : Nat) : ∀ bm i,
    (∀ j, i ≤ j → j < i + rem → ¬ (¬ (bm.desc j).valid ∧ (bm.desc j).file = f)) →
    (∀ j, i ≤ j → j < i + rem → ¬ ((bm.desc j).file = f ∧ 0 < (bm.desc j).pinCnt)) →
    (flushLoop f rem bm i).1 = Except.ok () := by
  induction rem with
  | zero =>
    intro bm i _ _
    simp [flushLoop]
  | succ rem ih =>
    intro bm i hbad hpin
    simp only [flushLoop]
    split_ifs with h1 h2 h3
    · exact absurd h1 (hbad i (by omega) (by omega))
    · exact absurd h2 (hpin i (by omega) (by omega))
    · refine ih (flushStep bm i) (i + 1) ?_ ?_
      · intro j hj1 hj2
        rw [flushStep_desc_ne bm (by omega : j ≠ i)]
        exact hbad j (by omega) (by omega)
      · intro j hj1 hj2
        rw [flushStep_desc_ne bm (by omega : j ≠ i)]
        exact hpin j (by omega) (by omega)
    · refine ih bm (i + 1) ?_ ?_
      · intro j hj1 hj2
        exact hbad j (by omega) (by omega)
      · intro j hj1 hj2
        exact hpin j (by omega) (by omega)

theorem flushLoop_store_preserve (f : Option Nat) (rem : Nat) : ∀ bm i (key : Nat × Nat),
    (∀ j, i ≤ j → j < i + rem → (bm.desc j).valid → (bm.desc j).file = f →
       (bm.desc j).dirty → key ≠ ((bm.desc j).file.getD 0, (bm.desc j).pageNo)) →
    hLookup (flushLoop f rem bm i).2.store key = hLookup bm.store key := by
  induction rem with
  | zero =>
    intro bm i key _
    simp [flushLoop]
  | succ rem ih =>
    intro bm i key hx
    simp only [flushLoop]
    split_ifs with h1 h2 h3
    · rfl
    · rfl
    · have hstep : hLookup (flushStep bm i).store key = hLookup bm.store key := by
        rw [flushStep_store]
        by_cases hd : (bm.desc i).dirty
        · rw [if_pos hd]
          exact hLookup_cons_ne
            (Ne.symm (hx i (by omega) (by omega) h3.1 h3.2 hd))
        · rw [if_neg hd]
      rw [ih (flushStep bm i) (i + 1) key ?_, hstep]
      intro j hj1 hj2 hjv hjf hjd
      rw [flushStep_desc_ne bm (by omega : j ≠ i)] at hjv hjf hjd ⊢
      exact hx j (by omega) (by omega) hjv hjf hjd
    · refine ih bm (i + 1) key ?_
      intro j hj1 hj2
      exact hx j (by omega) (by omega)

theorem flushLoop_ok_writeback (f : Option Nat) (rem : Nat) : ∀ bm i j f1,
    f = some f1 → i ≤ j → j < i + rem →
    (bm.desc j).valid → (bm.desc j).file = f → (bm.desc j).dirty →
    (∀ j2, j < j2 → j2 < i + rem → (bm.desc j2).valid → (bm.desc j2).file = f →
       (bm.desc j2).pageNo ≠ (bm.desc j).pageNo) →
    (flushLoop f rem bm i).1 = Except.ok () →
    hLookup (flushLoop f rem bm i).2.store (f1, (bm.desc j).pageNo) =
      some (bm.bufPool.getD j 0) := by
  induction rem with
  | zero =>
    intro bm i j f1 _ hij hj _ _ _ _ _
    omega
  | succ rem ih =>
    intro bm i j f1 hsome hij hj hv hf hd hdist hok
    simp only [flushLoop] at hok ⊢
    split_ifs at hok ⊢ with h1 h2 h3
    · by_cases hji : j = i
      · subst hji
        have hkey : ((bm.desc j).file.getD 0, (bm.desc j).pageNo) =
            ((f1 : Nat), (bm.desc j).pageNo) := by
          rw [hf, hsome]
          rfl
        have hpres := flushLoop_store_preserve f rem (flushStep bm j) (j + 1)
          (f1, (bm.desc j).pageNo) ?_
        · rw [hpres, flushStep_store, if_pos hd, ← hkey, hLookup_cons_self]
        · intro j2 hj2a hj2b hj2v hj2f hj2d
          rw [flushStep_desc_ne bm (by omega : j2 ≠ j)] at hj2v hj2f hj2d ⊢
          have hne := hdist j2 (by omega) (by omega) hj2v hj2f
          intro he
          apply hne
          rw [hj2f, hsome] at he
          have h5 := congrArg Prod.snd he
          simpa using h5.symm
      · have h4 := ih (flushStep bm i) (i + 1) j f1 hsome (by omega) (by omega)
          (by rw [flushStep_desc_ne bm hji]; exact hv)
          (by rw [flushStep_desc_ne bm hji]; exact hf)
          (by rw [flushStep_desc_ne bm hji]; exact hd)
          ?_ hok
        · rw [flushStep_desc_ne bm hji, flushStep_bufPool] at h4
          exact h4
        · intro j2 hj2a hj2b hj2v hj2f
          rw [flushStep_desc_ne bm (by omega : j2 ≠ i)] at hj2v hj2f ⊢
          rw [flushStep_desc_ne bm hji]
          exact hdist j2 (by omega) (by omega) hj2v hj2f
    · have hji : j ≠ i := by
        rintro rfl
        exact h3 ⟨hv, hf⟩
      refine ih bm (i + 1) j f1 hsome (by omega) (by omega) hv hf hd ?_ hok
      intro j2 hj2a hj2b
      exact hdist j2 (by omega) (by omega)

theorem flushLoop_ne_pnp (f : Option Nat) (rem : Nat) : ∀ bm i,
    (flushLoop f rem bm i).1 ≠ Except.error BufErr.pageNotPinned := by
  induction rem with
  | zero =>
    intro bm i
    simp [flushLoop]
  | succ rem ih =>
    intro bm i
    simp only [flushLoop]
    split_ifs with h1 h2 h3
    · simp
    · simp
    · exact ih (flushStep bm i) (i + 1)
    · exact ih bm (i + 1)

theorem flushStep_consistent (bm : BM) (i : Nat) (hc : consistent bm)
    (hv : (bm.desc i).valid) : consistent (flushStep bm i) := by
  obtain ⟨hlen, hch, hnd, hmemF, hmemB, hclear⟩ := hc
  have hiN : i < bm.numBufs := desc_valid_lt hlen hv
  have hmi : (((bm.desc i).file, (bm.desc i).pageNo), i) ∈ bm.hashTable := hmemB i hiN hv
  refine ⟨?_, ?_, ?_, ?_, ?_, ?_⟩
  · rw [flushStep_length, flushStep_numBufs]
    exact hlen
  · rw [flushStep_clockHand, flushStep_numBufs]
    exact hch
  · rw [flushStep_hashTable]
    exact keys_nodup_hRemove hnd
  · intro e he
    rw [flushStep_hashTable] at he
    have heT := hRemove_subset _ he
    obtain ⟨h1, h2, h3, h4⟩ := hmemF e heT
    have hne : e.2 ≠ i := by
      rintro rfl
      have hkey : e.1 = ((bm.desc e.2).file, (bm.desc e.2).pageNo) := by
        rw [h3, h4]
      rw [← hkey] at he
      exact @not_mem_hRemove_self _ _ _ bm.hashTable e.1 hnd e.2 he
    rw [flushStep_numBufs, flushStep_desc_ne bm hne]
    exact ⟨h1, h2, h3, h4⟩
  · intro j hj hvj
    rw [flushStep_numBufs] at hj
    have hne : j ≠ i := by
      rintro rfl
      rw [flushStep_desc_self] at hvj
      simp [BufDesc.Clear] at hvj
    rw [flushStep_desc_ne bm hne] at hvj ⊢
    have hmj := hmemB j hj hvj
    rw [flushStep_hashTable]
    refine mem_hRemove_of_ne hmj ?_
    intro hkeq
    exact hne (keys_inj hnd (hkeq ▸ hmj) hmi)
  · intro j hj hvj
    rw [flushStep_numBufs] at hj
    by_cases hne : j = i
    · subst hne
      exact flushStep_desc_self bm j
    · rw [flushStep_desc_ne bm hne] at hvj ⊢
      exact hclear j hj hvj

theorem flushLoop_consistent (f : Option Nat) (rem : Nat) : ∀ bm i,
    consistent bm → consistent (flushLoop f rem bm i).2 := by
  induction rem with
  | zero =>
    intro bm i hc
    simpa [flushLoop] using hc
  | succ rem ih =>
    intro bm i hc
    simp only [flushLoop]
    split_ifs with h1 h2 h3
    · exact hc
    · exact hc
    · exact ih (flushStep bm i) (i + 1) (flushStep_consistent bm i hc h3.1)
    · exact ih bm (i + 1) hc

/-! Lemmas on advanceClock and the allocBuf sweep. -/

theorem advanceClock_lt {bm : BM} (h : bm.clockHand < bm.numBufs) :
    (advanceClock bm).clockHand < bm.numBufs := by
  unfold advanceClock
  by_cases he : bm.clockHand + 1 = bm.numBufs
  · simp [he]
    omega
  · simp [he]
    omega

theorem advanceClock_consistent {bm : BM} (hc : consistent bm) :
    consistent (advanceClock bm) :=
  ⟨hc.1, advanceClock_lt hc.2.1, hc.2.2.1, hc.2.2.2.1, hc.2.2.2.2.1, hc.2.2.2.2.2⟩

theorem consistentX_of_invalid {bm : BM} {fr : Nat} (hc : consistent bm)
    (hinv : ¬ (bm.desc fr).valid) : consistentX bm fr := by
  obtain ⟨hlen, hch, hnd, hmemF, hmemB, hclear⟩ := hc
  refine ⟨hlen, hch, hnd, ?_, ?_, ?_⟩
  · intro e he
    obtain ⟨h1, h2, h3, h4⟩ := hmemF e he
    refine ⟨h1, ?_, h2, h3, h4⟩
    rintro rfl
    exact hinv h2
  · intro j hj _ hvj
    exact hmemB j hj hvj
  · intro j hj _ hnv
    exact hclear j hj hnv

theorem consistentX_clean_victim (bm : BM) (hc : consistent bm)
    (hv : (bm.desc bm.clockHand).valid) :
    consistentX
      { bm with
          hashTable :=
            hRemove bm.hashTable ((bm.desc bm.clockHand).file, (bm.desc bm.clockHand).pageNo) }
      bm.clockHand := by
  obtain ⟨hlen, hch, hnd, hmemF, hmemB, hclear⟩ := hc
  have hmi := hmemB bm.clockHand hch hv
  refine ⟨hlen, hch, keys_nodup_hRemove hnd, ?_, ?_, ?_⟩
  · intro e he
    have heT := hRemove_subset _ he
    obtain ⟨h1, h2, h3, h4⟩ := hmemF e heT
    refine ⟨h1, ?_, h2, h3, h4⟩
    intro hfr
    have hkey : e.1 = ((bm.desc bm.clockHand).file, (bm.desc bm.clockHand).pageNo) := by
      rw [← hfr, h3, h4]
    rw [← hkey] at he
    exact @not_mem_hRemove_self _ _ _ bm.hashTable e.1 hnd e.2 he
  · intro j hj hjfr hvj
    have hm := hmemB j hj hvj
    refine mem_hRemove_of_ne hm ?_
    intro hkeq
    exact hjfr (keys_inj hnd (hkeq ▸ hm) hmi)
  · intro j hj _ hnv
    exact hclear j hj hnv

theorem allocBufLoop_succ_invalid (rem : Nat) (bm : BM)
    (h : ¬ (bm.desc bm.clockHand).valid) :
    allocBufLoop (rem + 1) bm = ((Except.ok bm.clockHand, bm), 0) := by
  simp only [allocBufLoop]
  rw [if_pos h]

theorem allocBufLoop_succ_clean (rem : Nat) (bm : BM)
    (hv : (bm.desc bm.clockHand).valid)
    (h : (bm.desc bm.clockHand).pinCnt = 0 ∧ ¬ (bm.desc bm.clockHand).dirty) :
    allocBufLoop (rem + 1) bm =
      ((Except.ok bm.clockHand,
        { bm with
            hashTable :=
              hRemove bm.hashTable ((bm.desc bm.clockHand).file, (bm.desc bm.clockHand).pageNo) }),
        0) := by
  simp only [allocBufLoop]
  rw [if_neg (not_not_intro hv), if_pos h]

theorem allocBufLoop_succ_dirty (rem : Nat) (bm : BM)
    (hv : (bm.desc bm.clockHand).valid)
    (h : (bm.desc bm.clockHand).pinCnt = 0 ∧ (bm.desc bm.clockHand).dirty) :
    allocBufLoop (rem + 1) bm =
      ((match flushFile (bm.desc bm.clockHand).file bm with
        | (Except.ok _, bm1) => (Except.ok bm.clockHand, bm1)
        | (Except.error e, bm1) => (Except.error e, bm1)), 0) := by
  simp only [allocBufLoop]
  rw [if_neg (not_not_intro hv), if_neg (fun hcl => hcl.2 h.2), if_pos h]

theorem allocBufLoop_succ_pinned (rem : Nat) (bm : BM)
    (hv : (bm.desc bm.clockHand).valid)
    (hp : (bm.desc bm.clockHand).pinCnt ≠ 0) :
    allocBufLoop (rem + 1) bm =
      ((allocBufLoop rem (advanceClock bm)).1, (allocBufLoop rem (advanceClock bm)).2 + 1) := by
  simp only [allocBufLoop]
  rw [if_neg (not_not_intro hv), if_neg (fun hcl => hp hcl.1), if_neg (fun hcl => hp hcl.1)]

theorem allocBufLoop_all_pinned (rem : Nat) : ∀ bm : BM,
    bm.bufDescTable.length = bm.numBufs →
    bm.clockHand < bm.numBufs →
    (∀ j, j < bm.numBufs → (bm.desc j).valid ∧ 0 < (bm.desc j).pinCnt) →
    ∃ ch, ch < bm.numBufs ∧
      allocBufLoop rem bm =
        ((Except.error BufErr.bufferExceeded, { bm with clockHand := ch }), rem) := by
  induction rem with
  | zero =>
    intro bm hlen hch hpin
    exact ⟨bm.clockHand, hch, rfl⟩
  | succ rem ih =>
    intro bm hlen hch hpin
    have hd := hpin bm.clockHand hch
    rw [allocBufLoop_succ_pinned rem bm hd.1 (by omega)]
    obtain ⟨ch, hch2, heq⟩ := ih (advanceClock bm) hlen (advanceClock_lt hch) hpin
    refine ⟨ch, hch2, ?_⟩
    rw [heq]
    rfl

theorem allocBufLoop_advances_le (rem : Nat) : ∀ bm : BM,
    (allocBufLoop rem bm).2 ≤ rem := by
  induction rem with
  | zero =>
    intro bm
    simp [allocBufLoop]
  | succ rem ih =>
    intro bm
    by_cases h1 : (bm.desc bm.clockHand).valid
    · by_cases h2 : (bm.desc bm.clockHand).pinCnt = 0
      · by_cases h3 : (bm.desc bm.clockHand).dirty
        · rw [allocBufLoop_succ_dirty rem bm h1 ⟨h2, h3⟩]
          simp
        · rw [allocBufLoop_succ_clean rem bm h1 ⟨h2, h3⟩]
          simp
      · rw [allocBufLoop_succ_pinned rem bm h1 h2]
        have h4 := ih (advanceClock bm)
        show (allocBufLoop rem (advanceClock bm)).2 + 1 ≤ rem + 1
        omega
    · rw [allocBufLoop_succ_invalid rem bm h1]
      simp

theorem allocBufLoop_ne_pnp (rem : Nat) : ∀ bm : BM,
    (allocBufLoop rem bm).1.1 ≠ Except.error BufErr.pageNotPinned := by
  induction rem with
  | zero =>
    intro bm
    simp [allocBufLoop]
  | succ rem ih =>
    intro bm
    by_cases h1 : (bm.desc bm.clockHand).valid
    · by_cases h2 : (bm.desc bm.clockHand).pinCnt = 0
      · by_cases h3 : (bm.desc bm.clockHand).dirty
        · cases hr : flushFile (bm.desc bm.clockHand).file bm with
          | mk r bm1 =>
            cases r with
            | ok u =>
              rw [allocBufLoop_succ_dirty rem bm h1 ⟨h2, h3⟩, hr]
              simp
            | error e =>
              have hne2 : (flushFile (bm.desc bm.clockHand).file bm).1 ≠
                  Except.error BufErr.pageNotPinned :=
                flushLoop_ne_pnp (bm.desc bm.clockHand).file bm.numBufs bm 0
              have he : e ≠ BufErr.pageNotPinned := by
                intro hh
                apply hne2
                rw [hr, hh]
              rw [allocBufLoop_succ_dirty rem bm h1 ⟨h2, h3⟩, hr]
              simpa using he
        · rw [allocBufLoop_succ_clean rem bm h1 ⟨h2, h3⟩]
          simp
      · rw [allocBufLoop_succ_pinned rem bm h1 h2]
        exact ih (advanceClock bm)
    · rw [allocBufLoop_succ_invalid rem bm h1]
      simp

theorem allocBufLoop_lookup_none (rem : Nat) : ∀ (bm : BM) (k : Option Nat × Nat),
    hLookup bm.hashTable k = none →
    hLookup (allocBufLoop rem bm).1.2.hashTable k = none := by
  induction rem with
  | zero =>
    intro bm k h
    exact h
  | succ rem ih =>
    intro bm k h
    by_cases h1 : (bm.desc bm.clockHand).valid
    · by_cases h2 : (bm.desc bm.clockHand).pinCnt = 0
      · by_cases h3 : (bm.desc bm.clockHand).dirty
        · cases hr : flushFile (bm.desc bm.clockHand).file bm with
          | mk r bm1 =>
            have hfl : hLookup (flushFile (bm.desc bm.clockHand).file bm).2.hashTable k = none :=
              flushLoop_lookup_none (bm.desc bm.clockHand).file bm.numBufs bm 0 k h
            rw [hr] at hfl
            cases r with
            | ok u =>
              rw [allocBufLoop_succ_dirty rem bm h1 ⟨h2, h3⟩, hr]
              exact hfl
            | error e =>
              rw [allocBufLoop_succ_dirty rem bm h1 ⟨h2, h3⟩, hr]
              exact hfl
        · rw [allocBufLoop_succ_clean rem bm h1 ⟨h2, h3⟩]
          exact hLookup_none_hRemove h
      · rw [allocBufLoop_succ_pinned rem bm h1 h2]
        exact ih (advanceClock bm) k h
    · rw [allocBufLoop_succ_invalid rem bm h1]
      exact h

theorem allocBufLoop_error_consistent (rem : Nat) : ∀ (bm : BM) (e : BufErr),
    consistent bm → (allocBufLoop rem bm).1.1 = Except.error e →
    consistent (allocBufLoop rem bm).1.2 := by
  induction rem with
  | zero =>
    intro bm e hc _
    exact hc
  | succ rem ih =>
    intro bm e hc herr
    by_cases h1 : (bm.desc bm.clockHand).valid
    · by_cases h2 : (bm.desc bm.clockHand).pinCnt = 0
      · by_cases h3 : (bm.desc bm.clockHand).dirty
        · cases hr : flushFile (bm.desc bm.clockHand).file bm with
          | mk r bm1 =>
            have hcons : consistent (flushFile (bm.desc bm.clockHand).file bm).2 :=
              flushLoop_consistent (bm.desc bm.clockHand).file bm.numBufs bm 0 hc
            rw [hr] at hcons
            cases r with
            | ok u =>
              rw [allocBufLoop_succ_dirty rem bm h1 ⟨h2, h3⟩, hr] at herr
              simp at herr
            | error e2 =>
              rw [allocBufLoop_succ_dirty rem bm h1 ⟨h2, h3⟩, hr]
              exact hcons
        · rw [allocBufLoop_succ_clean rem bm h1 ⟨h2, h3⟩] at herr
          simp at herr
      · rw [allocBufLoop_succ_pinned rem bm h1 h2] at herr ⊢
        exact ih (advanceClock bm) e (advanceClock_consistent hc) herr
    · rw [allocBufLoop_succ_invalid rem bm h1] at herr
      simp at herr

theorem allocBufLoop_ok_consistentX (rem : Nat) : ∀ (bm : BM) (fr : Nat),
    consistent bm → (allocBufLoop rem bm).1.1 = Except.ok fr →
    fr < (allocBufLoop rem bm).1.2.numBufs ∧ consistentX (allocBufLoop rem bm).1.2 fr := by
  induction rem with
  | zero =>
    intro bm fr _ hok
    simp [allocBufLoop] at hok
  | succ rem ih =>
    intro bm fr hc hok
    by_cases h1 : (bm.desc bm.clockHand).valid
    · by_cases h2 : (bm.desc bm.clockHand).pinCnt = 0
      · by_cases h3 : (bm.desc bm.clockHand).dirty
        · cases hr : flushFile (bm.desc bm.clockHand).file bm with
          | mk r bm1 =>
            cases r with
            | ok u =>
              rw [allocBufLoop_succ_dirty rem bm h1 ⟨h2, h3⟩, hr] at hok ⊢
              simp at hok
              subst hok
              have hcons : consistent (flushFile (bm.desc bm.clockHand).file bm).2 :=
                flushLoop_consistent (bm.desc bm.clockHand).file bm.numBufs bm 0 hc
              have hfok : (flushFile (bm.desc bm.clockHand).file bm).1 = Except.ok () := by
                rw [hr]
              have hclear2 : (flushFile (bm.desc bm.clockHand).file bm).2.desc bm.clockHand =
                  BufDesc.Clear :=
                flushLoop_ok_clear (bm.desc bm.clockHand).file bm.numBufs bm 0 bm.clockHand
                  (by omega) (by simpa using hc.2.1) h1 rfl hfok
              have hnum : (flushFile (bm.desc bm.clockHand).file bm).2.numBufs = bm.numBufs :=
                (flushLoop_misc (bm.desc bm.clockHand).file bm.numBufs bm 0).1
              rw [hr] at hcons hclear2 hnum
              have hcons2 : consistent bm1 := hcons
              have hclear3 : bm1.desc bm.clockHand = BufDesc.Clear := hclear2
              have hnum2 : bm1.numBufs = bm.numBufs := hnum
              constructor
              · show bm.clockHand < bm1.numBufs
                rw [hnum2]
                exact hc.2.1
              · show consistentX bm1 bm.clockHand
                refine consistentX_of_invalid hcons2 ?_
                rw [hclear3]
                simp [BufDesc.Clear]
            | error e =>
              rw [allocBufLoop_succ_dirty rem bm h1 ⟨h2, h3⟩, hr] at hok
              simp at hok
        · rw [allocBufLoop_succ_clean rem bm h1 ⟨h2, h3⟩] at hok ⊢
          simp at hok
          subst hok
          exact ⟨hc.2.1, consistentX_clean_victim bm hc h1⟩
      · rw [allocBufLoop_succ_pinned rem bm h1 h2] at hok ⊢
        exact ih (advanceClock bm) fr (advanceClock_consistent hc) hok
    · rw [allocBufLoop_succ_invalid rem bm h1] at hok ⊢
      simp at hok
      subst hok
      exact ⟨hc.2.1, consistentX_of_invalid hc h1⟩

theorem consistent_install (bm : BM) (fr fi p : Nat) (pl : List Nat)
    (hX : consistentX bm fr) (hfr : fr < bm.numBufs)
    (hnone : hLookup bm.hashTable (some fi, p) = none) :
    consistent
      { bm with
          bufPool := pl,
          hashTable := ((some fi, p), fr) :: bm.hashTable,
          bufDescTable := bm.bufDescTable.set fr (BufDesc.Set fi p) } := by
  obtain ⟨hlen, hch, hnd, hmemF, hmemB, hclear⟩ := hX
  have hfrlen : fr < bm.bufDescTable.length := by
    rw [hlen]
    exact hfr
  have hdesc : ∀ j, (({ bm with
      bufPool := pl,
      hashTable := ((some fi, p), fr) :: bm.hashTable,
      bufDescTable := bm.bufDescTable.set fr (BufDesc.Set fi p) } : BM).desc j) =
      (bm.bufDescTable.set fr (BufDesc.Set fi p)).getD j BufDesc.Clear :=
    fun _ => rfl
  have hself : (bm.bufDescTable.set fr (BufDesc.Set fi p)).getD fr BufDesc.Clear =
      BufDesc.Set fi p := getD_set_self_of_lt hfrlen
  have hother : ∀ j, j ≠ fr →
      (bm.bufDescTable.set fr (BufDesc.Set fi p)).getD j BufDesc.Clear = bm.desc j :=
    fun j hj => getD_set_ne (fun hh => hj hh.symm)
  refine ⟨?_, ?_, ?_, ?_, ?_, ?_⟩
  · show (bm.bufDescTable.set fr (BufDesc.Set fi p)).length = bm.numBufs
    rw [List.length_set]
    exact hlen
  · exact hch
  · show ((((some fi, p), fr) :: bm.hashTable).map Prod.fst).Nodup
    rw [List.map_cons]
    refine List.nodup_cons.mpr ⟨?_, hnd⟩
    intro hmem
    obtain ⟨e, he, hkey⟩ := List.mem_map.mp hmem
    have hkey2 : e.1 = (some fi, p) := hkey
    have h5 : ((some fi, p), e.2) ∈ bm.hashTable := by
      rw [← hkey2]
      exact he
    exact hLookup_eq_none.mp hnone e.2 h5
  · intro e he
    rcases List.mem_cons.mp he with h1 | h1
    · subst h1
      rw [hdesc, hself]
      exact ⟨hfr, by simp [BufDesc.Set], by simp [BufDesc.Set], by simp [BufDesc.Set]⟩
    · obtain ⟨g1, g3, g4, g5⟩ := hmemF e h1
      have g2 : e.2 ≠ fr := (hmemF e h1).2.1
      rw [hdesc, hother e.2 g2]
      exact ⟨g1, (hmemF e h1).2.2.1, (hmemF e h1).2.2.2.1, (hmemF e h1).2.2.2.2⟩
  · intro j hj hvj
    rw [hdesc] at hvj ⊢
    by_cases hjfr : j = fr
    · subst hjfr
      rw [hself]
      exact List.mem_cons_self _ _
    · rw [hother j hjfr] at hvj ⊢
      exact List.mem_cons_of_mem _ (hmemB j hj hjfr hvj)
  · intro j hj hnv
    rw [hdesc] at hnv ⊢
    by_cases hjfr : j = fr
    · subst hjfr
      rw [hself] at hnv
      simp [BufDesc.Set] at hnv
    · rw [hother j hjfr] at hnv ⊢
      exact hclear j hj hjfr hnv

theorem consistent_update_meta (bm : BM) (fr : Nat) (d2 : BufDesc)
    (hc : consistent bm) (hfr : fr < bm.numBufs)
    (hv2 : d2.valid = (bm.desc fr).valid) (hf2 : d2.file = (bm.desc fr).file)
    (hp2 : d2.pageNo = (bm.desc fr).pageNo) (hvv : (bm.desc fr).valid) :
    consistent { bm with bufDescTable := bm.bufDescTable.set fr d2 } := by
  obtain ⟨hlen, hch, hnd, hmemF, hmemB, hclear⟩ := hc
  have hfrlen : fr < bm.bufDescTable.length := by
    rw [hlen]
    exact hfr
  have hdesc : ∀ j, (({ bm with bufDescTable := bm.bufDescTable.set fr d2 } : BM).desc j) =
      (bm.bufDescTable.set fr d2).getD j BufDesc.Clear := fun _ => rfl
  have hself : (bm.bufDescTable.set fr d2).getD fr BufDesc.Clear = d2 :=
    getD_set_self_of_lt hfrlen
  have hother : ∀ j, j ≠ fr →
      (bm.bufDescTable.set fr d2).getD j BufDesc.Clear = bm.desc j :=
    fun j hj => getD_set_ne (fun hh => hj hh.symm)
  refine ⟨?_, hch, hnd, ?_, ?_, ?_⟩
  · show (bm.bufDescTable.set fr d2).length = bm.numBufs
    rw [List.length_set]
    exact hlen
  · intro e he
    obtain ⟨g1, g2, g3, g4⟩ := hmemF e he
    rw [hdesc]
    by_cases hefr : e.2 = fr
    · rw [hefr, hself]
      rw [hefr] at g2 g3 g4
      exact ⟨hefr ▸ g1, by rw [hv2]; exact g2, by rw [hf2]; exact g3, by rw [hp2]; exact g4⟩
    · rw [hother e.2 hefr]
      exact ⟨g1, g2, g3, g4⟩
  · intro j hj hvj
    rw [hdesc] at hvj ⊢
    by_cases hjfr : j = fr
    · subst hjfr
      rw [hself, hf2, hp2]
      exact hmemB j hj hvv
    · rw [hother j hjfr] at hvj ⊢
      exact hmemB j hj hvj
  · intro j hj hnv
    rw [hdesc] at hnv ⊢
    by_cases hjfr : j = fr
    · subst hjfr
      rw [hself, hv2] at hnv
      exact absurd hvv hnv
    · rw [hother j hjfr] at hnv ⊢
      exact hclear j hj hnv

theorem consistent_clear_remove (bm : BM) (fr fi p : Nat) (dl : List (Nat × Nat))
    (hc : consistent bm) (hl : hLookup bm.hashTable (some fi, p) = some fr) :
    consistent
      { bm with
          bufDescTable := bm.bufDescTable.set fr BufDesc.Clear,
          hashTable := hRemove bm.hashTable (some fi, p),
          deletes := dl } := by
  obtain ⟨hlen, hch, hnd, hmemF, hmemB, hclear⟩ := hc
  have hm := hLookup_mem hl
  obtain ⟨g1, g2, g3, g4⟩ := hmemF _ hm
  have g1n : fr < bm.numBufs := g1
  have g2n : (bm.desc fr).valid := g2
  have g3n : (bm.desc fr).file = some fi := g3
  have g4n : (bm.desc fr).pageNo = p := g4
  have hdesc : ∀ j, (({ bm with
      bufDescTable := bm.bufDescTable.set fr BufDesc.Clear,
      hashTable := hRemove bm.hashTable (some fi, p),
      deletes := dl } : BM).desc j) =
      (bm.bufDescTable.set fr BufDesc.Clear).getD j BufDesc.Clear := fun _ => rfl
  have hself : (bm.bufDescTable.set fr BufDesc.Clear).getD fr BufDesc.Clear = BufDesc.Clear :=
    getD_set_self
  have hother : ∀ j, j ≠ fr →
      (bm.bufDescTable.set fr BufDesc.Clear).getD j BufDesc.Clear = bm.desc j :=
    fun j hj => getD_set_ne (fun hh => hj hh.symm)
  refine ⟨?_, hch, keys_nodup_hRemove hnd, ?_, ?_, ?_⟩
  · show (bm.bufDescTable.set fr BufDesc.Clear).length = bm.numBufs
    rw [List.length_set]
    exact hlen
  · intro e he
    have heT := hRemove_subset _ he
    obtain ⟨k1, k2, k3, k4⟩ := hmemF e heT
    have hefr : e.2 ≠ fr := by
      rintro rfl
      have hkey : e.1 = (some fi, p) := by
        have h6 : (e.1.1, e.1.2) = ((some fi : Option Nat), p) := by
          rw [← k3, ← k4, g3n, g4n]
        exact h6
      have he2 : e ∈ hRemove bm.hashTable (some fi, p) := he
      rw [← hkey] at he2
      exact @not_mem_hRemove_self _ _ _ bm.hashTable e.1 hnd e.2 he2
    rw [hdesc, hother e.2 hefr]
    exact ⟨k1, k2, k3, k4⟩
  · intro j hj hvj
    rw [hdesc] at hvj ⊢
    by_cases hjfr : j = fr
    · subst hjfr
      rw [hself] at hvj
      simp [BufDesc.Clear] at hvj
    · rw [hother j hjfr] at hvj ⊢
      refine mem_hRemove_of_ne (hmemB j hj hvj) ?_
      intro hkeq
      exact hjfr (keys_inj hnd (hkeq ▸ hmemB j hj hvj) hm)
  · intro j hj hnv
    rw [hdesc] at hnv ⊢
    by_cases hjfr : j = fr
    · subst hjfr
      rw [hself]
    · rw [hother j hjfr] at hnv ⊢
      exact hclear j hj hnv

theorem pageNo_le_maxPageNo {t : List ((Option Nat × Nat) × Nat)}
    {e : (Option Nat × Nat) × Nat} (h : e ∈ t) : e.1.2 ≤ maxPageNo t := by
  induction t with
  | nil => cases h
  | cons a t ih =>
    rcases List.mem_cons.mp h with h1 | h1
    · subst h1
      show e.1.2 ≤ max e.1.2 (maxPageNo t)
      exact Nat.le_max_left _ _
    · calc e.1.2 ≤ maxPageNo t := ih h1
        _ ≤ max a.1.2 (maxPageNo t) := Nat.le_max_right _ _

theorem fresh_lookup_none (t : List ((Option Nat × Nat) × Nat)) (f : Option Nat) :
    hLookup t (f, freshPageId t) = none := by
  cases hl : hLookup t (f, freshPageId t) with
  | none => rfl
  | some v =>
    have hm := hLookup_mem hl
    have hle : ((f, freshPageId t), v).1.2 ≤ maxPageNo t := pageNo_le_maxPageNo hm
    simp [freshPageId] at hle

/-! Preservation of the consistency invariant by each public call. -/

theorem readPage_consistent (fi p : Nat) (bm : BM) (hc : consistent bm) :
    consistent (readPage fi p bm).2 := by
  cases hl : hLookup bm.hashTable (some fi, p) with
  | some frameNo =>
    obtain ⟨g1, g2, _, _⟩ := hc.2.2.2.1 _ (hLookup_mem hl)
    simp only [readPage, hl]
    show consistent
      { bm with
          bufDescTable := bm.bufDescTable.set frameNo
            ({ bm.desc frameNo with refbit := true, pinCnt := (bm.desc frameNo).pinCnt + 1 }) }
    exact consistent_update_meta bm frameNo _ hc g1 rfl rfl rfl g2
  | none =>
    simp only [readPage, hl]
    cases hab : allocBuf bm with
    | mk r bm1 =>
      cases r with
      | error e =>
        
        have h1 : (allocBufLoop (bm.numBufs + 1) bm).1 = (Except.error e, bm1) := hab
        have herr : (allocBufLoop (bm.numBufs + 1) bm).1.1 = Except.error e := by rw [h1]
        have hco := allocBufLoop_error_consistent (bm.numBufs + 1) bm e hc herr
        rw [h1] at hco
        exact hco
      | ok frameFree =>
        
        have h1 : (allocBufLoop (bm.numBufs + 1) bm).1 = (Except.ok frameFree, bm1) := hab
        have hokk : (allocBufLoop (bm.numBufs + 1) bm).1.1 = Except.ok frameFree := by rw [h1]
        have hX := allocBufLoop_ok_consistentX (bm.numBufs + 1) bm frameFree hc hokk
        rw [h1] at hX
        have hnone1 : hLookup bm1.hashTable (some fi, p) = none := by
          have h2 := allocBufLoop_lookup_none (bm.numBufs + 1) bm (some fi, p) hl
          rw [h1] at h2
          exact h2
        exact consistent_install bm1 frameFree fi p _ hX.2 hX.1 hnone1

theorem unPinPage_consistent (fi p : Nat) (md : Bool) (bm : BM) (hc : consistent bm) :
    consistent (unPinPage fi p md bm).2 := by
  cases hl : hLookup bm.hashTable (some fi, p) with
  | none =>
    simp only [unPinPage, hl]
    exact hc
  | some t =>
    obtain ⟨g1, g2, _, _⟩ := hc.2.2.2.1 _ (hLookup_mem hl)
    simp only [unPinPage, hl]
    by_cases hz : (bm.desc t).pinCnt = 0
    · rw [if_pos hz]
      exact hc
    · rw [if_neg hz]
      refine consistent_update_meta bm t _ hc g1 ?_ ?_ ?_ g2
      · by_cases hmd : md <;> simp [hmd]
      · by_cases hmd : md <;> simp [hmd]
      · by_cases hmd : md <;> simp [hmd]

theorem disposePage_consistent (fi p : Nat) (bm : BM) (hc : consistent bm) :
    consistent (disposePage fi p bm).2 := by
  cases hl : hLookup bm.hashTable (some fi, p) with
  | none =>
    simp only [disposePage, hl]
    exact hc
  | some tempFrame =>
    simp only [disposePage, hl]
    by_cases hz : (bm.desc tempFrame).pinCnt ≠ 0
    · rw [if_pos hz]
      exact hc
    · rw [if_neg hz]
      exact consistent_clear_remove bm tempFrame fi p _ hc hl

theorem allocPage_consistent (fi : Nat) (bm : BM) (hc : consistent bm) :
    consistent (allocPage fi bm).2 := by
  simp only [allocPage]
  cases hab : allocBuf bm with
  | mk r bm1 =>
    cases r with
    | error e =>
      
      have h1 : (allocBufLoop (bm.numBufs + 1) bm).1 = (Except.error e, bm1) := hab
      have herr : (allocBufLoop (bm.numBufs + 1) bm).1.1 = Except.error e := by rw [h1]
      have hco := allocBufLoop_error_consistent (bm.numBufs + 1) bm e hc herr
      rw [h1] at hco
      exact hco
    | ok frameToAlloc =>
      
      have h1 : (allocBufLoop (bm.numBufs + 1) bm).1 = (Except.ok frameToAlloc, bm1) := hab
      have hokk : (allocBufLoop (bm.numBufs + 1) bm).1.1 = Except.ok frameToAlloc := by rw [h1]
      have hX := allocBufLoop_ok_consistentX (bm.numBufs + 1) bm frameToAlloc hc hokk
      rw [h1] at hX
      exact consistent_install bm1 frameToAlloc fi (freshPageId bm1.hashTable) _ hX.2 hX.1
        (fresh_lookup_none _ _)

theorem initBM_consistent (n : Nat) (hn : 0 < n) : consistent (initBM n) := by
  refine ⟨?_, ?_, ?_, ?_, ?_, ?_⟩
  · simp [initBM]
  · show n - 1 < n
    omega
  · simp [initBM]
  · intro e he
    simp [initBM] at he
  · intro j hj hvj
    have hcl : (initBM n).desc j = BufDesc.Clear := getD_replicate_of_lt hj
    rw [hcl] at hvj
    simp [BufDesc.Clear] at hvj
  · intro j hj _
    exact getD_replicate_of_lt hj

theorem applyOp_consistent (op : Op) (bm : BM) (hc : consistent bm) :
    consistent (applyOp op bm) := by
  cases op with
  | read f p => exact readPage_consistent f p bm hc
  | unpin f p d => exact unPinPage_consistent f p d bm hc
  | alloc f => exact allocPage_consistent f bm hc
  | dispose f p => exact disposePage_consistent f p bm hc
  | flush f => exact flushLoop_consistent (some f) bm.numBufs bm 0 hc

/-- Full effect of a successful flushFile call, assembled from the loop
lemmas: under no pinned and no corrupt frame of the file, the call
returns ok, clears exactly the descriptors owned by the file, removes
exactly their directory entries, writes back the dirty ones, and leaves
the pool, the delete log, the hand and every other frame unchanged. -/
theorem flushFile_effect_aux (bm : BM) (F : Nat)
    (hlen : bm.bufDescTable.length = bm.numBufs)
    (hnd : (bm.hashTable.map Prod.fst).Nodup)
    (hmem : ∀ j, j < bm.numBufs → (bm.desc j).valid →
        (((bm.desc j).file, (bm.desc j).pageNo), j) ∈ bm.hashTable)
    (hpin : ∀ j, j < bm.numBufs → (bm.desc j).file = some F → (bm.desc j).pinCnt = 0)
    (hbad : ∀ j, j < bm.numBufs → ¬ (bm.desc j).valid → (bm.desc j).file ≠ some F) :
    (flushFile (some F) bm).1 = Except.ok () ∧
    (∀ j, j < bm.numBufs → (bm.desc j).file = some F →
        (flushFile (some F) bm).2.desc j = BufDesc.Clear) ∧
    (∀ j, j < bm.numBufs → (bm.desc j).file ≠ some F →
        (flushFile (some F) bm).2.desc j = bm.desc j) ∧
    (∀ j, j < bm.numBufs → (bm.desc j).file = some F →
        hLookup (flushFile (some F) bm).2.hashTable (some F, (bm.desc j).pageNo) = none) ∧
    (∀ k : Option Nat × Nat, k.1 ≠ some F →
        hLookup (flushFile (some F) bm).2.hashTable k = hLookup bm.hashTable k) ∧
    (∀ j, j < bm.numBufs → (bm.desc j).file = some F → (bm.desc j).dirty →
        storeRead (flushFile (some F) bm).2.store F (bm.desc j).pageNo = bm.bufPool.getD j 0) ∧
    (flushFile (some F) bm).2.bufPool = bm.bufPool ∧
    (flushFile (some F) bm).2.deletes = bm.deletes ∧
    (flushFile (some F) bm).2.clockHand = bm.clockHand := by
  have hvF : ∀ j, j < bm.numBufs → (bm.desc j).file = some F → (bm.desc j).valid := by
    intro j hj hjf
    by_contra hnv
    exact hbad j hj hnv hjf
  have hok : (flushLoop (some F) bm.numBufs bm 0).1 = Except.ok () := by
    refine flushLoop_ok (some F) bm.numBufs bm 0 ?_ ?_
    · intro j _ hj hcontra
      exact hbad j (by omega) hcontra.1 hcontra.2
    · intro j _ hj hcontra
      have := hpin j (by omega) hcontra.1
      omega
  have hdist : ∀ j j2, j < bm.numBufs → j2 < bm.numBufs → j ≠ j2 →
      (bm.desc j).file = some F → (bm.desc j2).file = some F →
      (bm.desc j2).pageNo ≠ (bm.desc j).pageNo := by
    intro j j2 hj hj2 hne hjf hj2f heq
    have hm1 := hmem j hj (hvF j hj hjf)
    have hm2 := hmem j2 hj2 (hvF j2 hj2 hj2f)
    rw [hjf] at hm1
    rw [hj2f, heq] at hm2
    exact hne (keys_inj hnd hm1 hm2)
  refine ⟨hok, ?_, ?_, ?_, ?_, ?_, ?_, ?_, ?_⟩
  · intro j hj hjf
    exact flushLoop_ok_clear (some F) bm.numBufs bm 0 j (by omega) (by omega)
      (hvF j hj hjf) hjf hok
  · intro j hj hjf
    refine flushLoop_desc_untouched (some F) bm.numBufs bm 0 j ?_
    right
    right
    intro hcontra
    exact hjf hcontra.2
  · intro j hj hjf
    exact flushLoop_ok_removed (some F) bm.numBufs bm 0 j hnd (by omega) (by omega)
      (hvF j hj hjf) hjf hok
  · intro k hk
    exact flushLoop_hashTable_ne (some F) bm.numBufs bm 0 k hk
  · intro j hj hjf hjd
    have hw := flushLoop_ok_writeback (some F) bm.numBufs bm 0 j F rfl (by omega) (by omega)
      (hvF j hj hjf) hjf hjd ?_ hok
    · show (hLookup (flushLoop (some F) bm.numBufs bm 0).2.store (F, (bm.desc j).pageNo)).getD 0 = _
      rw [hw]
      rfl
    · intro j2 hj2a hj2b hj2v hj2f
      exact hdist j j2 hj (by omega) (by omega) hjf hj2f
  · exact (flushLoop_misc (some F) bm.numBufs bm 0).2.2.1
  · exact (flushLoop_misc (some F) bm.numBufs bm 0).2.2.2.1
  · exact (flushLoop_misc (some F) bm.numBufs bm 0).2.1

/-! Claim theorems. -/

/-- C1: the spec requires that a valid, unpinned frame whose refbit is
set is not selected on that visit of the eviction sweep, that its refbit
is cleared and the sweep continues.  The code violates this (its own
comments announce a refbit check that the branch conditions never
perform): at the concrete state exC1 the hand points at a valid,
unpinned, clean frame with refbit set, and allocBuf selects it as the
victim on that very visit, leaving its refbit set. -/
theorem clock_second_chance_ignored :
    (exC1.desc 0).valid = true ∧ (exC1.desc 0).pinCnt = 0 ∧
    (exC1.desc 0).dirty = false ∧ (exC1.desc 0).refbit = true ∧
    exC1.clockHand = 0 ∧
    (allocBuf exC1).1 = Except.ok 0 ∧
    ((allocBuf exC1).2.desc 0).refbit = true := by
  decide

/-- C2 counterexample: at exC2 the hand points at a dirty, unpinned
victim (frame 0, file 5) and frame 1 holds another dirty page of file 5.
The claim says that eviction modifies no frame other than the victim,
but the eviction clears frame 1 too and removes its directory entry. -/
theorem allocBuf_dirty_victim_touches_other_frame :
    (allocBuf exC2).1 = Except.ok 0 ∧
    (exC2.desc 1).valid = true ∧
    ((allocBuf exC2).2.desc 1).valid = false ∧
    hLookup (allocBuf exC2).2.hashTable (some 5, 2) = none := by
  decide

/-- C2 amended: when the clock allocator selects a dirty, unpinned
victim, it runs a whole-file flush of the victim's owner file: provided
no frame of that file is pinned, the sweep returns the victim frame,
every frame owned by that file (victim included) is written back if
dirty, has its directory entry removed and its descriptor reset to
free, and frames and directory entries of other files, and the page
pool, are unmodified. -/
theorem allocBuf_dirty_victim_whole_file_flush (bm : BM) (F : Nat)
    (hc : consistent bm)
    (hv : (bm.desc bm.clockHand).valid)
    (hp0 : (bm.desc bm.clockHand).pinCnt = 0)
    (hd : (bm.desc bm.clockHand).dirty)
    (hf : (bm.desc bm.clockHand).file = some F)
    (hpin : ∀ j, j < bm.numBufs → (bm.desc j).file = some F → (bm.desc j).pinCnt = 0) :
    (allocBuf bm).1 = Except.ok bm.clockHand ∧
    (∀ j, j < bm.numBufs → (bm.desc j).file = some F →
        (allocBuf bm).2.desc j = BufDesc.Clear) ∧
    (∀ j, j < bm.numBufs → (bm.desc j).file ≠ some F →
        (allocBuf bm).2.desc j = bm.desc j) ∧
    (∀ j, j < bm.numBufs → (bm.desc j).file = some F →
        hLookup (allocBuf bm).2.hashTable (some F, (bm.desc j).pageNo) = none) ∧
    (∀ k : Option Nat × Nat, k.1 ≠ some F →
        hLookup (allocBuf bm).2.hashTable k = hLookup bm.hashTable k) ∧
    (∀ j, j < bm.numBufs → (bm.desc j).file = some F → (bm.desc j).dirty →
        storeRead (allocBuf bm).2.store F (bm.desc j).pageNo = bm.bufPool.getD j 0) ∧
    (allocBuf bm).2.bufPool = bm.bufPool := by
  have hbad : ∀ j, j < bm.numBufs → ¬ (bm.desc j).valid → (bm.desc j).file ≠ some F := by
    intro j hj hnv hjf
    have hcl := hc.2.2.2.2.2 j hj hnv
    rw [hcl] at hjf
    simp [BufDesc.Clear] at hjf
  have aux := flushFile_effect_aux bm F hc.1 hc.2.2.1 hc.2.2.2.2.1 hpin hbad
  have hstep : allocBuf bm =
      (match flushFile (bm.desc bm.clockHand).file bm with
        | (Except.ok _, bm1) => (Except.ok bm.clockHand, bm1)
        | (Except.error e, bm1) => (Except.error e, bm1)) := by
    show (allocBufLoop (bm.numBufs + 1) bm).1 = _
    rw [allocBufLoop_succ_dirty bm.numBufs bm hv ⟨hp0, hd⟩]
  rw [hf] at hstep
  cases hfr : flushFile (some F) bm with
  | mk r bm2 =>
    have hok1 : r = Except.ok () := by
      have h9 := aux.1
      rw [hfr] at h9
      exact h9
    subst hok1
    have hab : allocBuf bm = (Except.ok bm.clockHand, bm2) := by
      rw [hstep, hfr]
    rw [hfr] at aux
    rw [hab]
    exact ⟨rfl, aux.2.1, aux.2.2.1, aux.2.2.2.1, aux.2.2.2.2.1, aux.2.2.2.2.2.1,
      aux.2.2.2.2.2.2.1⟩

/-- C2 amended witness: at exC2w the victim is the dirty, unpinned page
(12, 1) in frame 0 and the clean page (13, 1) of another file survives
the eviction untouched. -/
theorem allocBuf_dirty_victim_whole_file_flush_witness :
    (allocBuf exC2w).1 = Except.ok 0 ∧
    (allocBuf exC2w).2.desc 0 = BufDesc.Clear ∧
    (allocBuf exC2w).2.desc 1 = exC2w.desc 1 ∧
    hLookup (allocBuf exC2w).2.hashTable (some 12, 1) = none ∧
    hLookup (allocBuf exC2w).2.hashTable (some 13, 1) = hLookup exC2w.hashTable (some 13, 1) ∧
    storeRead (allocBuf exC2w).2.store 12 1 = exC2w.bufPool.getD 0 0 ∧
    (allocBuf exC2w).2.bufPool = exC2w.bufPool := by
  have h := allocBuf_dirty_victim_whole_file_flush exC2w 12 (by decide) (by decide) (by decide)
    (by decide) (by decide) (by decide)
  exact ⟨h.1, h.2.1 0 (by decide) (by decide), h.2.2.1 1 (by decide) (by decide),
    h.2.2.2.1 0 (by decide) (by decide), h.2.2.2.2.1 (some 13, 1) (by decide),
    h.2.2.2.2.2.1 0 (by decide) (by decide) (by decide), h.2.2.2.2.2.2⟩

/-- C3: every state reachable from a freshly constructed manager through
any sequence of public calls (successful or failing) satisfies the
directory / descriptor-table consistency invariant: a directory entry
mapping a (file, pageId) key to frame f exists exactly when frame f is
valid with that owner, keys are unique, and free descriptors are fully
cleared. -/
theorem reachable_consistent (bm : BM) (h : Reachable bm) : consistent bm := by
  induction h with
  | init n hn => exact initBM_consistent n hn
  | step bm2 op _ ih => exact applyOp_consistent op bm2 ih

/-- C3 witness: the state after one fetch on a fresh two-frame pool is
reachable and hence consistent. -/
theorem reachable_consistent_witness : consistent (applyOp (Op.read 1 1) (initBM 2)) :=
  reachable_consistent _ (Reachable.step (initBM 2) (Op.read 1 1) (Reachable.init 2 (by decide)))

/-- C4: when every frame is valid and pinned, a fetch miss and an
allocate attempt both raise BufferExceeded (PoolExhausted) after a sweep
of exactly numBufs + 1 hand advances, and the post-state differs from
the pre-state only in the clock hand: descriptors, directory, pool,
store and delete log are all untouched (the code performs no refbit
clears at all). -/
theorem all_pinned_pool_exhausted (bm : BM) (fi p : Nat)
    (hlen : bm.bufDescTable.length = bm.numBufs)
    (hch : bm.clockHand < bm.numBufs)
    (hpin : ∀ j, j < bm.numBufs → (bm.desc j).valid ∧ 0 < (bm.desc j).pinCnt)
    (hmiss : hLookup bm.hashTable (some fi, p) = none) :
    ∃ ch, ch < bm.numBufs ∧
      readPage fi p bm = (Except.error BufErr.bufferExceeded, { bm with clockHand := ch }) ∧
      allocPage fi bm = (Except.error BufErr.bufferExceeded, { bm with clockHand := ch }) ∧
      allocBufAdvances bm = bm.numBufs + 1 := by
  obtain ⟨ch, hch2, heq⟩ := allocBufLoop_all_pinned (bm.numBufs + 1) bm hlen hch hpin
  have hab : allocBuf bm = (Except.error BufErr.bufferExceeded, { bm with clockHand := ch }) := by
    show (allocBufLoop (bm.numBufs + 1) bm).1 = _
    rw [heq]
  refine ⟨ch, hch2, ?_, ?_, ?_⟩
  · simp only [readPage, hmiss]
    rw [hab]
  · simp only [allocPage]
    rw [hab]
  · show (allocBufLoop (bm.numBufs + 1) bm).2 = bm.numBufs + 1
    rw [heq]

/-- C4 witness: at exC4 both frames are pinned, page (4, 9) is not
resident, and both entry points fail with BufferExceeded moving only
the hand. -/
theorem all_pinned_pool_exhausted_witness :
    ∃ ch, ch < exC4.numBufs ∧
      readPage 4 9 exC4 = (Except.error BufErr.bufferExceeded, { exC4 with clockHand := ch }) ∧
      allocPage 4 exC4 = (Except.error BufErr.bufferExceeded, { exC4 with clockHand := ch }) ∧
      allocBufAdvances exC4 = exC4.numBufs + 1 :=
  all_pinned_pool_exhausted exC4 4 9 (by decide) (by decide) (by decide) (by decide)

/-- C5: a fetch of a non-resident page can fail with PagePinned rather
than PoolExhausted: at exC5 the victim (6, 1) is dirty and unpinned, the
unrelated page (6, 2) of the same file is pinned, and fetching the
non-resident page (9, 5) of a different file raises PagePinned through
the whole-file flush the allocator performs on the victim's file. -/
theorem fetch_miss_fails_pagePinned_cross_page :
    hLookup exC5.hashTable (some 9, 5) = none ∧
    (exC5.desc 0).dirty = true ∧ (exC5.desc 0).pinCnt = 0 ∧
    (exC5.desc 0).file = some 6 ∧ exC5.clockHand = 0 ∧
    (exC5.desc 1).file = some 6 ∧ 0 < (exC5.desc 1).pinCnt ∧
    (readPage 9 5 exC5).1 = Except.error BufErr.pagePinned := by
  decide

/-- C6: a flushFile call on a file with no pinned and no corrupt frames
succeeds and: clears the descriptor of every frame owned by the file,
leaves every other frame unchanged, removes the directory entry of every
frame owned by the file, keeps every other directory entry, writes back
the dirty frames owned by the file, and leaves the pool, the delete log
and the clock hand unchanged. -/
theorem flushFile_success_effect (bm : BM) (F : Nat)
    (hlen : bm.bufDescTable.length = bm.numBufs)
    (hnd : (bm.hashTable.map Prod.fst).Nodup)
    (hmem : ∀ j, j < bm.numBufs → (bm.desc j).valid →
        (((bm.desc j).file, (bm.desc j).pageNo), j) ∈ bm.hashTable)
    (hpin : ∀ j, j < bm.numBufs → (bm.desc j).file = some F → (bm.desc j).pinCnt = 0)
    (hbad : ∀ j, j < bm.numBufs → ¬ (bm.desc j).valid → (bm.desc j).file ≠ some F) :
    (flushFile (some F) bm).1 = Except.ok () ∧
    (∀ j, j < bm.numBufs → (bm.desc j).file = some F →
        (flushFile (some F) bm).2.desc j = BufDesc.Clear) ∧
    (∀ j, j < bm.numBufs → (bm.desc j).file ≠ some F →
        (flushFile (some F) bm).2.desc j = bm.desc j) ∧
    (∀ j, j < bm.numBufs → (bm.desc j).file = some F →
        hLookup (flushFile (some F) bm).2.hashTable (some F, (bm.desc j).pageNo) = none) ∧
    (∀ k : Option Nat × Nat, k.1 ≠ some F →
        hLookup (flushFile (some F) bm).2.hashTable k = hLookup bm.hashTable k) ∧
    (∀ j, j < bm.numBufs → (bm.desc j).file = some F → (bm.desc j).dirty →
        storeRead (flushFile (some F) bm).2.store F (bm.desc j).pageNo = bm.bufPool.getD j 0) ∧
    (flushFile (some F) bm).2.bufPool = bm.bufPool ∧
    (flushFile (some F) bm).2.deletes = bm.deletes ∧
    (flushFile (some F) bm).2.clockHand = bm.clockHand :=
  flushFile_effect_aux bm F hlen hnd hmem hpin hbad

/-- C6 witness: flushing file 8 at exC6 writes back the dirty page
(8, 1), resets both frames of file 8, removes both directory entries,
and leaves the pinned page of file 9 untouched. -/
theorem flushFile_success_effect_witness :
    (flushFile (some 8) exC6).1 = Except.ok () ∧
    (flushFile (some 8) exC6).2.desc 0 = BufDesc.Clear ∧
    (flushFile (some 8) exC6).2.desc 2 = BufDesc.Clear ∧
    (flushFile (some 8) exC6).2.desc 1 = exC6.desc 1 ∧
    hLookup (flushFile (some 8) exC6).2.hashTable (some 8, 1) = none ∧
    hLookup (flushFile (some 8) exC6).2.hashTable (some 8, 2) = none ∧
    hLookup (flushFile (some 8) exC6).2.hashTable (some 9, 1) =
      hLookup exC6.hashTable (some 9, 1) ∧
    storeRead (flushFile (some 8) exC6).2.store 8 1 = exC6.bufPool.getD 0 0 ∧
    (flushFile (some 8) exC6).2.bufPool = exC6.bufPool := by
  have h := flushFile_success_effect exC6 8 (by decide) (by decide) (by decide) (by decide)
    (by decide)
  exact ⟨h.1, h.2.1 0 (by decide) (by decide), h.2.1 2 (by decide) (by decide),
    h.2.2.1 1 (by decide) (by decide), h.2.2.2.1 0 (by decide) (by decide),
    h.2.2.2.1 2 (by decide) (by decide), h.2.2.2.2.1 (some 9, 1) (by decide),
    h.2.2.2.2.2.1 0 (by decide) (by decide) (by decide), h.2.2.2.2.2.2.1⟩

/-- C7: disposePage on a resident pinned page fails with PagePinned and
changes nothing (no delete issued); on a resident unpinned page it
clears the descriptor, removes the directory entry and logs exactly one
Store delete; on a non-resident page it only logs one Store delete. -/
theorem disposePage_spec (bm : BM) (fi p : Nat) :
    (∀ fr, hLookup bm.hashTable (some fi, p) = some fr → (bm.desc fr).pinCnt ≠ 0 →
        disposePage fi p bm = (Except.error BufErr.pagePinned, bm)) ∧
    (∀ fr, hLookup bm.hashTable (some fi, p) = some fr → (bm.desc fr).pinCnt = 0 →
        disposePage fi p bm =
          (Except.ok (),
            { bm with
                bufDescTable := bm.bufDescTable.set fr BufDesc.Clear,
                hashTable := hRemove bm.hashTable (some fi, p),
                deletes := bm.deletes ++ [(fi, p)] })) ∧
    (hLookup bm.hashTable (some fi, p) = none →
        disposePage fi p bm = (Except.ok (), { bm with deletes := bm.deletes ++ [(fi, p)] })) := by
  refine ⟨?_, ?_, ?_⟩
  · intro fr hl hp
    simp only [disposePage, hl]
    rw [if_pos hp]
  · intro fr hl hp
    simp only [disposePage, hl]
    rw [if_neg (not_not_intro hp)]
  · intro hl
    simp only [disposePage, hl]

/-- C7 witness: at exPin, disposing the pinned page (2, 4) fails with
PagePinned and leaves the state unchanged, disposing the unpinned page
(2, 6) clears frame 1, removes the entry and logs one delete, and
disposing the non-resident page (2, 9) only logs one delete. -/
theorem disposePage_spec_witness :
    disposePage 2 4 exPin = (Except.error BufErr.pagePinned, exPin) ∧
    disposePage 2 6 exPin =
      (Except.ok (),
        { exPin with
            bufDescTable := exPin.bufDescTable.set 1 BufDesc.Clear,
            hashTable := hRemove exPin.hashTable (some 2, 6),
            deletes := exPin.deletes ++ [(2, 6)] }) ∧
    disposePage 2 9 exPin = (Except.ok (), { exPin with deletes := exPin.deletes ++ [(2, 9)] }) :=
  ⟨(disposePage_spec exPin 2 4).1 0 (by decide) (by decide),
   (disposePage_spec exPin 2 6).2.1 1 (by decide) (by decide),
   (disposePage_spec exPin 2 9).2.2 (by decide)⟩

/-- C8 counterexample: the claim as stated says every sweep either
returns a frame or reports PoolExhausted, yet at exC8 the sweep ends
with PagePinned, propagated out of the whole-file flush of the dirty
victim. -/
theorem allocBuf_sweep_third_outcome :
    (allocBuf exC8).1 = Except.error BufErr.pagePinned := by
  decide

/-- C8 amended: for every pool state the clock sweep terminates after at
most numBufs + 1 hand advances and yields either a frame, or
BufferExceeded (PoolExhausted), or a PagePinned / BadBuffer error
propagated from the whole-file flush of a dirty victim; it never yields
PageNotPinned and never loops forever. -/
theorem allocBuf_terminates_bounded (bm : BM) :
    allocBufAdvances bm ≤ bm.numBufs + 1 ∧
    ((∃ fr, (allocBuf bm).1 = Except.ok fr) ∨
      (allocBuf bm).1 = Except.error BufErr.bufferExceeded ∨
      (allocBuf bm).1 = Except.error BufErr.pagePinned ∨
      (allocBuf bm).1 = Except.error BufErr.badBuffer) ∧
    (allocBuf bm).1 ≠ Except.error BufErr.pageNotPinned := by
  refine ⟨allocBufLoop_advances_le (bm.numBufs + 1) bm, ?_,
    allocBufLoop_ne_pnp (bm.numBufs + 1) bm⟩
  cases h : (allocBuf bm).1 with
  | ok fr => exact Or.inl ⟨fr, rfl⟩
  | error e =>
    cases e with
    | bufferExceeded => exact Or.inr (Or.inl rfl)
    | pageNotPinned => exact absurd h (allocBufLoop_ne_pnp (bm.numBufs + 1) bm)
    | pagePinned => exact Or.inr (Or.inr (Or.inl rfl))
    | badBuffer => exact Or.inr (Or.inr (Or.inr rfl))

/-- C9: unpinning a resident page whose pin count is already zero fails
with PageNotPinned and leaves the whole manager state unchanged, for
either value of the dirty argument. -/
theorem unPinPage_zero_pin_raises (bm : BM) (fi p fr : Nat) (md : Bool)
    (hl : hLookup bm.hashTable (some fi, p) = some fr)
    (hp : (bm.desc fr).pinCnt = 0) :
    unPinPage fi p md bm = (Except.error BufErr.pageNotPinned, bm) := by
  simp only [unPinPage, hl]
  rw [if_pos hp]

/-- C9 witness: page (2, 6) is resident in frame 1 of exPin with pin
count zero, and unpinning it fails with PageNotPinned, state
unchanged. -/
theorem unPinPage_zero_pin_raises_witness :
    hLookup exPin.hashTable (some 2, 6) = some 1 ∧ (exPin.desc 1).pinCnt = 0 ∧
    unPinPage 2 6 true exPin = (Except.error BufErr.pageNotPinned, exPin) :=
  ⟨by decide, by decide, unPinPage_zero_pin_raises exPin 2 6 1 true (by decide) (by decide)⟩

/-- C10: unpinning a page that is not resident (directory miss) is a
silent no-op for either value of the dirty argument: no error and the
state is returned unchanged. -/
theorem unPinPage_miss_noop (bm : BM) (fi p : Nat) (md : Bool)
    (hl : hLookup bm.hashTable (some fi, p) = none) :
    unPinPage fi p md bm = (Except.ok (), bm) := by
  simp only [unPinPage, hl]

/-- C10 witness: page (2, 9) is not resident in exPin and unpinning it
returns ok with the state unchanged, for both dirty flags. -/
theorem unPinPage_miss_noop_witness :
    hLookup exPin.hashTable (some 2, 9) = none ∧
    unPinPage 2 9 true exPin = (Except.ok (), exPin) ∧
    unPinPage 2 9 false exPin = (Except.ok (), exPin) :=
  ⟨by decide, unPinPage_miss_noop exPin 2 9 true (by decide),
   unPinPage_miss_noop exPin 2 9 false (by decide)⟩

end BufferManager
